import Mathlib

/-!
# Verification of the chess-variant rules engine (src/board.py, src/pieces.py, src/powerups.py)

Shallow embedding of the board state machine of the repository: piece records,
the 8x8 grid, per-piece pseudo-legal move generation, attack detection,
the in-place legality check `would_move_cause_check` (modelled as explicit
state passing returning the final grid), the move executor `move_piece`
(modelled as `Option`-valued, `none` standing for the Python `AttributeError`
raised when the castling branch reads an empty rook square), and the
click-driven turn controller `handle_click` (modelled as one select-then-move
step).  Coordinates are `Int` pairs, mirroring Python integer arithmetic;
grid reads and writes carry the 0..7 bounds guard under which every access in
the source occurs.
-/

namespace CRChess

/-- Piece types, from src/pieces.py `PieceType`. -/
inductive PieceType where
  | pawn
  | knight
  | bishop
  | rook
  | queen
  | king
deriving DecidableEq, Repr, Inhabited

/-- Piece colors, from src/pieces.py `Color`. -/
inductive Color where
  | white
  | black
deriving DecidableEq, Repr, Inhabited

/-- A piece record, from src/pieces.py `Piece.__init__`. -/
structure Piece where
  piece_type : PieceType
  color : Color
  position : Int × Int
  has_moved : Bool
  is_en_passant_vulnerable : Bool
deriving DecidableEq, Repr, Inhabited

/-- `Piece(piece_type, color, position)` constructor: both flags start false. -/
def mkPiece (t : PieceType) (c : Color) (pos : Int × Int) : Piece :=
  ⟨t, c, pos, false, false⟩

/-- The grid `self.board`: 8 rows of 8 optional pieces. -/
abbrev Board := List (List (Option Piece))

/-- `ChessBoard.is_valid_position`. -/
def is_valid_position (r c : Int) : Bool :=
  decide (0 ≤ r ∧ r < 8 ∧ 0 ≤ c ∧ c < 8)

/-- Read `self.board[r][c]`.  All reads in the modelled code paths occur at
indices in 0..7 (guarded by `is_valid_position` or at positions of pieces on
the grid), so out-of-range reads answer `none`. -/
def cell (b : Board) (r c : Int) : Option Piece :=
  if 0 ≤ r ∧ r < 8 ∧ 0 ≤ c ∧ c < 8 then (b.getD r.toNat []).getD c.toNat none
  else none

/-- Write `self.board[r][c] = v`, same guard as `cell`. -/
def setCell (b : Board) (r c : Int) (v : Option Piece) : Board :=
  if 0 ≤ r ∧ r < 8 ∧ 0 ≤ c ∧ c < 8 then b.set r.toNat ((b.getD r.toNat []).set c.toNat v)
  else b

/-- Game state: the fields set in `ChessBoard.__init__`. -/
structure GameState where
  board : Board
  selected_piece : Option Piece
  valid_moves : List (Int × Int)
  current_turn : Color
  last_move : Option (Piece × (Int × Int) × (Int × Int))
  en_passant_target : Option (Int × Int)
deriving DecidableEq, Inhabited

/-- Pawn advance direction: `-1 if piece.color == Color.WHITE else 1`. -/
def pawnDir (c : Color) : Int :=
  if c = Color.white then -1 else 1

/-- `ChessBoard.get_pawn_moves`: forward push, double push from the start
rank, diagonal captures, en-passant-target captures, in source order. -/
def get_pawn_moves (st : GameState) (p : Piece) : List (Int × Int) :=
  let row := p.position.1
  let col := p.position.2
  let d := pawnDir p.color
  let forwardMoves :=
    if is_valid_position (row + d) col ∧ cell st.board (row + d) col = none then
      (row + d, col) ::
        (let start_row : Int := if p.color = Color.white then 6 else 1
         if row = start_row ∧ is_valid_position (row + 2 * d) col ∧
             cell st.board (row + 2 * d) col = none then
           [(row + 2 * d, col)]
         else [])
    else []
  let captureMoves := [(-1 : Int), 1].flatMap (fun off =>
    let nr := row + d
    let nc := col + off
    if is_valid_position nr nc then
      (match cell st.board nr nc with
       | some tgt => if tgt.color ≠ p.color then [(nr, nc)] else []
       | none => []) ++
      (if st.en_passant_target = some (nr, nc) then [(nr, nc)] else [])
    else [])
  forwardMoves ++ captureMoves

/-- The eight knight offsets of `get_knight_moves`, in source order. -/
def knightOffsets : List (Int × Int) :=
  [(-2, -1), (-2, 1), (-1, -2), (-1, 2), (1, -2), (1, 2), (2, -1), (2, 1)]

/-- Occupancy filter applied to a jump target: in bounds and either empty or
holding an enemy piece. -/
def jumpTargets (b : Board) (pc : Color) (row col : Int)
    (offsets : List (Int × Int)) : List (Int × Int) :=
  offsets.flatMap (fun dd =>
    let nr := row + dd.1
    let nc := col + dd.2
    if is_valid_position nr nc then
      match cell b nr nc with
      | none => [(nr, nc)]
      | some tgt => if tgt.color ≠ pc then [(nr, nc)] else []
    else [])

/-- `ChessBoard.get_knight_moves`. -/
def get_knight_moves (st : GameState) (p : Piece) : List (Int × Int) :=
  jumpTargets st.board p.color p.position.1 p.position.2 knightOffsets

/-- One sliding ray: the inner `for i in range(1, BOARD_SIZE)` loop of
`get_bishop_moves` / `get_rook_moves`, with its stop-at-blocker behaviour.
`fuel` counts remaining iterations, `i` is the loop variable. -/
def rayFrom (b : Board) (pc : Color) (row col dr dc : Int) :
    Nat → Int → List (Int × Int)
  | 0, _ => []
  | Nat.succ k, i =>
    let nr := row + i * dr
    let nc := col + i * dc
    if is_valid_position nr nc then
      match cell b nr nc with
      | none => (nr, nc) :: rayFrom b pc row col dr dc k (i + 1)
      | some tgt => if tgt.color ≠ pc then [(nr, nc)] else []
    else []

/-- `ChessBoard.get_bishop_moves`: the four diagonal rays, in source order. -/
def get_bishop_moves (st : GameState) (p : Piece) : List (Int × Int) :=
  [((-1 : Int), (-1 : Int)), (-1, 1), (1, -1), (1, 1)].flatMap (fun dd =>
    rayFrom st.board p.color p.position.1 p.position.2 dd.1 dd.2 7 1)

/-- `ChessBoard.get_rook_moves`: the four orthogonal rays, in source order. -/
def get_rook_moves (st : GameState) (p : Piece) : List (Int × Int) :=
  [((0 : Int), (-1 : Int)), (0, 1), (-1, 0), (1, 0)].flatMap (fun dd =>
    rayFrom st.board p.color p.position.1 p.position.2 dd.1 dd.2 7 1)

/-- `ChessBoard.get_queen_moves`: rook moves followed by bishop moves. -/
def get_queen_moves (st : GameState) (p : Piece) : List (Int × Int) :=
  get_rook_moves st p ++ get_bishop_moves st p

/-- The eight one-square king offsets produced by the nested loops of
`get_king_moves` (also inlined in `get_moves_without_check_validation`),
in source iteration order. -/
def kingOffsets : List (Int × Int) :=
  [(-1, -1), (-1, 0), (-1, 1), (0, -1), (0, 1), (1, -1), (1, 0), (1, 1)]

/-- Regular one-square king moves (the castling-free part of
`get_king_moves`, identical to the king case of
`get_moves_without_check_validation`). -/
def kingAdjacentMoves (st : GameState) (p : Piece) : List (Int × Int) :=
  jumpTargets st.board p.color p.position.1 p.position.2 kingOffsets

/-- `ChessBoard.get_moves_without_check_validation`: pseudo-legal moves
without check validation; the king case excludes castling. -/
def get_moves_without_check_validation (st : GameState) (p : Piece) :
    List (Int × Int) :=
  match p.piece_type with
  | PieceType.pawn => get_pawn_moves st p
  | PieceType.knight => get_knight_moves st p
  | PieceType.bishop => get_bishop_moves st p
  | PieceType.rook => get_rook_moves st p
  | PieceType.queen => get_queen_moves st p
  | PieceType.king => kingAdjacentMoves st p

/-- The loop bounds `range(BOARD_SIZE)` as a list of coordinates. -/
def coords : List Int :=
  [0, 1, 2, 3, 4, 5, 6, 7]

/-- `ChessBoard.is_square_under_attack`: scan every square for an opposing
piece; pawns threaten the two diagonal-forward squares, kings every square at
Chebyshev distance at most 1 from them, and every other type the squares of
`get_moves_without_check_validation`. -/
def is_square_under_attack (st : GameState) (row col : Int)
    (friendly : Color) : Bool :=
  coords.any (fun r => coords.any (fun c =>
    match cell st.board r c with
    | none => false
    | some piece =>
      if piece.color ≠ friendly then
        match piece.piece_type with
        | PieceType.pawn =>
          let d := pawnDir piece.color
          decide (r + d = row ∧ (c - 1 = col ∨ c + 1 = col))
        | PieceType.king =>
          decide ((r - row).natAbs ≤ 1 ∧ (c - col).natAbs ≤ 1)
        | _ => decide ((row, col) ∈ get_moves_without_check_validation st piece)
      else false))

/-- The row-major scan order of the king-search loop in
`is_king_in_check`. -/
def allCoords : List (Int × Int) :=
  coords.flatMap (fun r => coords.map (fun c => (r, c)))

/-- The king-search loop of `is_king_in_check`: first square, in row-major
order, holding a king of the given color. -/
def findKing (st : GameState) (c : Color) : Option (Int × Int) :=
  allCoords.find? (fun q =>
    match cell st.board q.1 q.2 with
    | some p => decide (p.color = c ∧ p.piece_type = PieceType.king)
    | none => false)

/-- `ChessBoard.is_king_in_check`; `False` when no king is found. -/
def is_king_in_check (st : GameState) (c : Color) : Bool :=
  match findKing st c with
  | none => false
  | some kq => is_square_under_attack st kq.1 kq.2 c

/-- The home rank of a color: `7 if color == Color.WHITE else 0`. -/
def homeRow (c : Color) : Int :=
  if c = Color.white then 7 else 0

/-- `ChessBoard.can_castle_kingside`. -/
def can_castle_kingside (st : GameState) (color : Color) : Bool :=
  let row := homeRow color
  match cell st.board row 4, cell st.board row 7 with
  | some king, some rook =>
    if king.piece_type = PieceType.king ∧ rook.piece_type = PieceType.rook then
      if king.has_moved || rook.has_moved then false
      else if (cell st.board row 5).isSome || (cell st.board row 6).isSome then false
      else if is_square_under_attack st row 4 color ||
          is_square_under_attack st row 5 color ||
          is_square_under_attack st row 6 color then false
      else true
    else false
  | _, _ => false

/-- `ChessBoard.can_castle_queenside`. -/
def can_castle_queenside (st : GameState) (color : Color) : Bool :=
  let row := homeRow color
  match cell st.board row 4, cell st.board row 0 with
  | some king, some rook =>
    if king.piece_type = PieceType.king ∧ rook.piece_type = PieceType.rook then
      if king.has_moved || rook.has_moved then false
      else if (cell st.board row 1).isSome || (cell st.board row 2).isSome ||
          (cell st.board row 3).isSome then false
      else if is_square_under_attack st row 4 color ||
          is_square_under_attack st row 3 color ||
          is_square_under_attack st row 2 color then false
      else true
    else false
  | _, _ => false

/-- `ChessBoard.get_king_moves`: one-square moves plus castling candidates. -/
def get_king_moves (st : GameState) (p : Piece) : List (Int × Int) :=
  kingAdjacentMoves st p ++
    (if ¬ p.has_moved ∧ is_king_in_check st p.color = false then
      (if can_castle_kingside st p.color then
        [if p.color = Color.white then ((7 : Int), (6 : Int)) else (0, 6)]
      else []) ++
      (if can_castle_queenside st p.color then
        [if p.color = Color.white then ((7 : Int), (2 : Int)) else (0, 2)]
      else [])
    else [])

/-- The per-type dispatch at the top of `ChessBoard.get_valid_moves`
(the `moves` local before check filtering). -/
def pseudoMoves (st : GameState) (p : Piece) : List (Int × Int) :=
  match p.piece_type with
  | PieceType.pawn => get_pawn_moves st p
  | PieceType.knight => get_knight_moves st p
  | PieceType.bishop => get_bishop_moves st p
  | PieceType.rook => get_rook_moves st p
  | PieceType.queen => get_queen_moves st p
  | PieceType.king => get_king_moves st p

/-- `ChessBoard.would_move_cause_check`: make the move in place (including
the rook relocation for a king moving more than one file), test check, then
restore every mutated square and field.  Returns the check answer together
with the grid after the restore sequence — the state left behind in
`self.board`. -/
def would_move_cause_check (st : GameState) (p : Piece) (t : Int × Int) :
    Bool × Board :=
  let row := p.position.1
  let col := p.position.2
  let tr := t.1
  let tc := t.2
  let captured_piece := cell st.board tr tc
  let b1 := setCell st.board row col none
  let b2 := setCell b1 tr tc (some {p with position := t, has_moved := true})
  -- Special case for castling: the rook is read from the already-mutated
  -- grid, and skipped when its square is empty (`if rook:`).
  let castleStep : Board × Option (Piece × (Int × Int) × (Int × Int)) :=
    if p.piece_type = PieceType.king ∧ (col - tc).natAbs > 1 then
      if tc = 6 then
        match cell b2 row 7 with
        | some rook =>
          (setCell (setCell b2 row 7 none) row 5
            (some {rook with position := (row, 5)}), some (rook, (row, 7), (row, 5)))
        | none => (b2, none)
      else
        match cell b2 row 0 with
        | some rook =>
          (setCell (setCell b2 row 0 none) row 3
            (some {rook with position := (row, 3)}), some (rook, (row, 0), (row, 3)))
        | none => (b2, none)
    else (b2, none)
  let b3 := castleStep.1
  let in_check := is_king_in_check { st with board := b3 } p.color
  let b4 := setCell b3 row col (some p)
  let b5 := setCell b4 tr tc captured_piece
  let b6 :=
    match castleStep.2 with
    | some rki =>
      setCell (setCell b5 rki.2.1.1 rki.2.1.2 (some rki.1)) rki.2.2.1 rki.2.2.2 none
    | none => b5
  (in_check, b6)

/-- `ChessBoard.get_valid_moves`: filter the pseudo-legal moves through
`would_move_cause_check`.  Because the Python check mutates and restores
`self.board` in place, each candidate is evaluated on the grid left behind by
the previous candidate's restore; the fold threads that grid and returns it
alongside the accepted moves. -/
def get_valid_moves (st : GameState) (p : Piece) : List (Int × Int) × Board :=
  (pseudoMoves st p).foldl
    (fun acc m =>
      let r := would_move_cause_check { st with board := acc.2 } p m
      (if r.1 then acc.1 else acc.1 ++ [m], r.2))
    ([], st.board)

/-- The `is_en_passant_vulnerable = False` reset loop at the top of
`move_piece`: every pawn on the grid loses its vulnerability flag. -/
def clearPawnFlag (p : Piece) : Piece :=
  if p.piece_type = PieceType.pawn then { p with is_en_passant_vulnerable := false }
  else p

/-- The reset loop applied to the whole grid (the loop visits each of the 64
squares once and updates them independently). -/
def clearVuln (b : Board) : Board :=
  b.map (fun rowL => rowL.map (Option.map clearPawnFlag))

/-- The vulnerability reset and castling-relocation prefix of the executing
path of `move_piece` (source lines 421-439): `none` models the
`AttributeError` raised when the rook square of the castling branch is
empty; otherwise the grid after those steps. -/
def castle_step (st : GameState) (p : Piece) (t : Int × Int) : Option Board :=
  let b0 := clearVuln st.board
  if p.piece_type = PieceType.king ∧ (p.position.2 - t.2).natAbs > 1 then
    let rook_col : Int := if t.2 > p.position.2 then 7 else 0
    let new_rook_col : Int := if t.2 > p.position.2 then 5 else 3
    match cell b0 p.position.1 rook_col with
    | none => none
    | some rook =>
      some (setCell (setCell b0 p.position.1 rook_col none) p.position.1 new_rook_col
        (some { rook with position := (p.position.1, new_rook_col), has_moved := true }))
  else some b0

/-- The record mutations applied to the moving piece object on the
executing path (cleared vulnerability, new position, `has_moved`, and the
double-push vulnerability mark). -/
def moved_piece (p : Piece) (t : Int × Int) (pdm : Bool) : Piece :=
  let p0 := clearPawnFlag p
  let p1 := { p0 with position := t, has_moved := true }
  if pdm then { p1 with is_en_passant_vulnerable := true } else p1

/-- The grid after the executing path of `move_piece` (source lines
441-469), applied to the grid `b1` left by `castle_step`: clear the origin,
remove the en-passant victim, place the moved piece, promote. -/
def exec_board (st : GameState) (p : Piece) (t : Int × Int) (b1 : Board) : Board :=
  let row := p.position.1
  let col := p.position.2
  let en_passant_capture : Bool :=
    decide (p.piece_type = PieceType.pawn ∧ col ≠ t.2 ∧ cell st.board t.1 t.2 = none)
  let pawn_double_move : Bool :=
    decide (p.piece_type = PieceType.pawn ∧ (row - t.1).natAbs = 2)
  let b2 := setCell b1 row col none
  let b3 := if en_passant_capture then setCell b2 row t.2 none else b2
  let b4 := setCell b3 t.1 t.2 (some (moved_piece p t pawn_double_move))
  if p.piece_type = PieceType.pawn ∧
      ((p.color = Color.white ∧ t.1 = 0) ∨ (p.color = Color.black ∧ t.1 = 7)) then
    setCell b4 t.1 t.2 (some (mkPiece PieceType.queen p.color (t.1, t.2)))
  else b4

/-- The state after the executing path of `move_piece` (source lines
411-419 for the flags, 441-477 for the mutations and bookkeeping), applied
to the grid `b1` left by `castle_step`.  The flags are computed on the grid
as it was before the vulnerability reset, as in the source. -/
def exec_move (st : GameState) (p : Piece) (t : Int × Int) (b1 : Board) : GameState :=
  let pawn_double_move : Bool :=
    decide (p.piece_type = PieceType.pawn ∧ (p.position.1 - t.1).natAbs = 2)
  { board := exec_board st p t b1
    selected_piece := none
    valid_moves := []
    current_turn := if st.current_turn = Color.white then Color.black else Color.white
    last_move := some (moved_piece p t pawn_double_move, (p.position.1, p.position.2), t)
    en_passant_target :=
      (if pawn_double_move then some (p.position.1 + pawnDir p.color, p.position.2)
       else none) }

/-- `ChessBoard.move_piece`.  `none` models the `AttributeError` the source
raises when the castling branch finds no piece on the rook square; otherwise
`some (returnValue, newState)`.  The guard (`piece` null or target not in the
cached `self.valid_moves`) returns `False` before any mutation. -/
def move_piece (st : GameState) (pc : Option Piece) (t : Int × Int) :
    Option (Bool × GameState) :=
  match pc with
  | none => some (false, st)
  | some p =>
    if t ∈ st.valid_moves then
      (castle_step st p t).map (fun b1 => (true, exec_move st p t b1))
    else some (false, st)

/-- One completed turn through `ChessBoard.handle_click`: a click selecting a
piece of the side to move (caching its `get_valid_moves` result, and leaving
behind the grid those checks restored), followed by a click on one of the
cached squares, which calls `move_piece`.  `none` when the source sequence
would not commit a move this way. -/
def selectAndMove (st : GameState) (fromSq toSq : Int × Int) : Option GameState :=
  match cell st.board fromSq.1 fromSq.2 with
  | none => none
  | some p =>
    if p.color = st.current_turn then
      let gv := get_valid_moves st p
      let st1 := { st with board := gv.2, selected_piece := some p, valid_moves := gv.1 }
      if toSq ∈ gv.1 then
        match move_piece st1 (some p) toSq with
        | some r => some r.2
        | none => none
      else none
    else none

/-- A sequence of committed moves, each played through `selectAndMove`. -/
def playMoves (st : GameState) : List ((Int × Int) × (Int × Int)) → Option GameState
  | [] => some st
  | m :: ms =>
    match selectAndMove st m.1 m.2 with
    | some st1 => playMoves st1 ms
    | none => none

/-- Black's back rank, from `reset_board`. -/
def backRank (c : Color) (row : Int) : List (Option Piece) :=
  [some (mkPiece PieceType.rook c (row, 0)),
   some (mkPiece PieceType.knight c (row, 1)),
   some (mkPiece PieceType.bishop c (row, 2)),
   some (mkPiece PieceType.queen c (row, 3)),
   some (mkPiece PieceType.king c (row, 4)),
   some (mkPiece PieceType.bishop c (row, 5)),
   some (mkPiece PieceType.knight c (row, 6)),
   some (mkPiece PieceType.rook c (row, 7))]

/-- A rank of pawns, from `reset_board`. -/
def pawnRank (c : Color) (row : Int) : List (Option Piece) :=
  coords.map (fun col => some (mkPiece PieceType.pawn c (row, col)))

/-- An empty rank. -/
def emptyRank : List (Option Piece) :=
  coords.map (fun _ => none)

/-- `ChessBoard.reset_board`: the standard initial setup. -/
def initialBoard : Board :=
  [backRank Color.black 0, pawnRank Color.black 1,
   emptyRank, emptyRank, emptyRank, emptyRank,
   pawnRank Color.white 6, backRank Color.white 7]

/-- `ChessBoard.__init__`: fresh state, White to move. -/
def initialState : GameState :=
  { board := initialBoard
    selected_piece := none
    valid_moves := []
    current_turn := Color.white
    last_move := none
    en_passant_target := none }

/-- The pieces of one color on the grid, in row-major scan order. -/
def piecesOf (st : GameState) (c : Color) : List Piece :=
  allCoords.filterMap (fun q =>
    match cell st.board q.1 q.2 with
    | some p => if p.color = c then some p else none
    | none => none)

/-- Build a grid from a list of pieces placed at their recorded positions. -/
def boardOfPieces (ps : List Piece) : Board :=
  coords.map (fun r => coords.map (fun c => ps.find? (fun p => p.position = (r, c))))

/-- A fresh state over a given grid with a given side to move. -/
def stateOf (b : Board) (turn : Color) : GameState :=
  { board := b, selected_piece := none, valid_moves := [], current_turn := turn,
    last_move := none, en_passant_target := none }

/-- Powerup kinds, from src/powerups.py `PowerUpType`. -/
inductive PowerUpType where
  | PAWN_FORWARD_CAPTURE
  | KNIGHT_EXTENDED_RANGE
  | RANDOM_PIECE_REMOVAL
  | POISONED_PAWN
deriving DecidableEq, Repr

/-- Modelled from the spec: the secondary knight offset set added by the
`ExtendedRange` modifier.  The modifier-aware move generator is code of this
repository that is not under src/ (src/main.py drives
`chess_board.powerup_system`, but src/board.py has no modifier support); the
spec says the modifier "adds a configured secondary offset set
(e.g., plus-minus (1,3) / plus-minus (3,1)) under the same occupancy
filter". -/
def extendedKnightOffsets : List (Int × Int) :=
  [(-1, -3), (-1, 3), (1, -3), (1, 3), (-3, -1), (-3, 1), (3, -1), (3, 1)]

/-- Modelled from the spec: knight generation consulting the active modifier
set; with `KNIGHT_EXTENDED_RANGE` active the secondary offsets pass through
the same occupancy filter as the eight standard offsets. -/
def get_knight_moves_with_mods (st : GameState) (p : Piece)
    (mods : List PowerUpType) : List (Int × Int) :=
  jumpTargets st.board p.color p.position.1 p.position.2
    (knightOffsets ++
      (if PowerUpType.KNIGHT_EXTENDED_RANGE ∈ mods then extendedKnightOffsets else []))

/-- Modelled from the spec: the generation dispatch with the modifier-aware
knight case; all other piece types generate as in src/board.py. -/
def pseudoMovesWithMods (st : GameState) (p : Piece)
    (mods : List PowerUpType) : List (Int × Int) :=
  if p.piece_type = PieceType.knight then get_knight_moves_with_mods st p mods
  else pseudoMoves st p

/-- Modelled from the spec: the legality filter over the modifier-aware
generation, exactly as `get_valid_moves` filters the unmodified one. -/
def get_valid_moves_with_mods (st : GameState) (p : Piece)
    (mods : List PowerUpType) : List (Int × Int) × Board :=
  (pseudoMovesWithMods st p mods).foldl
    (fun acc m =>
      let r := would_move_cause_check { st with board := acc.2 } p m
      (if r.1 then acc.1 else acc.1 ++ [m], r.2))
    ([], st.board)

section ClaimStates

/-! Concrete states used by the counterexamples and witnesses. -/

/-- A game from the initial position: White walks a rook to h4 and plays
f2-f4 while Black walks the king to d4 behind the pawn g4; after the final
double push the en-passant capture g4xf3 is available to Black. -/
def c1Trace : List ((Int × Int) × (Int × Int)) :=
  [((6, 7), (4, 7)),
   ((1, 3), (2, 3)),
   ((7, 7), (5, 7)),
   ((1, 6), (3, 6)),
   ((4, 7), (3, 7)),
   ((3, 6), (4, 6)),
   ((5, 7), (4, 7)),
   ((0, 4), (1, 3)),
   ((6, 0), (5, 0)),
   ((1, 3), (2, 4)),
   ((5, 0), (4, 0)),
   ((2, 4), (3, 4)),
   ((6, 1), (5, 1)),
   ((3, 4), (4, 3)),
   ((6, 5), (4, 5))]

/-- An unmoved white king standing away from its home square, while the home
rank still holds an unmoved king and rook: the castling predicate consults
the home rank, but the legality-check simulation relocates whatever stands
on the file-7 square of the row of the moving king. -/
def c2Board : Board :=
  boardOfPieces
    [mkPiece PieceType.king Color.white (3, 4),
     mkPiece PieceType.bishop Color.black (3, 5),
     mkPiece PieceType.queen Color.black (3, 7),
     mkPiece PieceType.king Color.white (7, 4),
     mkPiece PieceType.rook Color.white (7, 7)]

/-- The moving king of the `c2Board` scenario. -/
def c2King : Piece := mkPiece PieceType.king Color.white (3, 4)

/-- The white pawn on e2 of the initial position. -/
def e2Pawn : Piece := mkPiece PieceType.pawn Color.white (6, 4)

/-- The black pawn on e7 of the initial position. -/
def e7Pawn : Piece := mkPiece PieceType.pawn Color.black (1, 4)

/-- Initial position with the legal moves of the white e2 pawn cached in
`valid_moves`, as `handle_click` leaves them after selecting that pawn. -/
def c3State : GameState :=
  { initialState with
      selected_piece := some e2Pawn
      valid_moves := (get_valid_moves initialState e2Pawn).1 }

/-- A lone black king. -/
def c5Board : Board := boardOfPieces [mkPiece PieceType.king Color.black (4, 4)]

/-- A lone white knight at row 4, column 3. -/
def c7Board : Board := boardOfPieces [mkPiece PieceType.knight Color.white (4, 3)]

/-- The knight of the `c7Board` scenario. -/
def c7Knight : Piece := mkPiece PieceType.knight Color.white (4, 3)


/-- A white pawn ready to capture en passant. -/
def c8Pawn : Piece := mkPiece PieceType.pawn Color.white (3, 4)

/-- The black pawn that just double-pushed past it. -/
def c8Victim : Piece :=
  { mkPiece PieceType.pawn Color.black (3, 5) with is_en_passant_vulnerable := true }

/-- A position where white can capture en passant on (2, 5), with the pawn
selected and its legal moves cached. -/
def c8State : GameState :=
  { board := boardOfPieces [c8Pawn, c8Victim]
    selected_piece := some c8Pawn
    valid_moves := [(2, 4), (2, 5)]
    current_turn := Color.white
    last_move := none
    en_passant_target := some (2, 5) }


/-- Initial position with the b1 knight selected and its legal moves cached,
as `handle_click` leaves them. -/
def c1WitState : GameState :=
  { initialState with
      selected_piece := some (mkPiece PieceType.knight Color.white (7, 1))
      valid_moves :=
        (get_valid_moves initialState (mkPiece PieceType.knight Color.white (7, 1))).1 }

end ClaimStates

/-! ## Shape and wellformedness of grids -/

/-- An 8 by 8 grid. -/
def Shape8 (b : Board) : Prop :=
  b.length = 8 ∧ ∀ row ∈ b, row.length = 8

instance (b : Board) : Decidable (Shape8 b) := by
  unfold Shape8
  infer_instance

/-- The piece stored at a square records that square as its position. -/
def posMatches (b : Board) (r c : Int) : Bool :=
  match cell b r c with
  | some p => decide (p.position = (r, c))
  | none => true

/-- The data-model invariant of the spec: an 8 by 8 grid in which the stored
position of every piece equals the square referencing it. -/
def WellFormed (b : Board) : Prop :=
  Shape8 b ∧ ∀ r ∈ coords, ∀ c ∈ coords, posMatches b r c = true

instance (b : Board) : Decidable (WellFormed b) := by
  unfold WellFormed
  infer_instance

/-! ## Grid access lemmas -/

lemma mem_coords {r : Int} : r ∈ coords ↔ 0 ≤ r ∧ r < 8 := by
  simp only [coords, List.mem_cons, List.mem_singleton, List.not_mem_nil, or_false]
  omega

lemma cell_bounds {b : Board} {r c : Int} {p : Piece} (h : cell b r c = some p) :
    0 ≤ r ∧ r < 8 ∧ 0 ≤ c ∧ c < 8 := by
  by_contra hn
  rw [cell, if_neg hn] at h
  exact Option.noConfusion h

lemma cell_not_inb {b : Board} {r c : Int} (h : ¬ (0 ≤ r ∧ r < 8 ∧ 0 ≤ c ∧ c < 8)) :
    cell b r c = none := by
  rw [cell, if_neg h]

lemma setCell_not_inb {b : Board} {r c : Int} (v : Option Piece)
    (h : ¬ (0 ≤ r ∧ r < 8 ∧ 0 ≤ c ∧ c < 8)) :
    setCell b r c v = b := by
  rw [setCell, if_neg h]

lemma WellFormed.position {b : Board} (h : WellFormed b) {r c : Int} {p : Piece}
    (hc : cell b r c = some p) : p.position = (r, c) := by
  have hb := cell_bounds hc
  have h2 := h.2 r (mem_coords.2 ⟨hb.1, hb.2.1⟩) c (mem_coords.2 ⟨hb.2.2.1, hb.2.2.2⟩)
  unfold posMatches at h2
  rw [hc] at h2
  exact of_decide_eq_true h2

lemma shape8_setCell {b : Board} (hs : Shape8 b) (r c : Int) (v : Option Piece) :
    Shape8 (setCell b r c v) := by
  unfold setCell
  split
  · refine ⟨by simpa [List.length_set] using hs.1, ?_⟩
    intro row hrow
    rcases List.mem_or_eq_of_mem_set hrow with hmem | heq
    · exact hs.2 row hmem
    · subst heq
      rw [List.length_set]
      have hi : r.toNat < b.length := by
        rw [hs.1]
        omega
      have hrow2 : b.getD r.toNat [] = b[r.toNat] := by
        rw [List.getD_eq_getElem?_getD, List.getElem?_eq_getElem hi, Option.getD_some]
      rw [hrow2]
      exact hs.2 _ (List.getElem_mem hi)
  · exact hs

lemma cell_setCell_same {b : Board} (hs : Shape8 b) {r c : Int} (v : Option Piece)
    (h : 0 ≤ r ∧ r < 8 ∧ 0 ≤ c ∧ c < 8) :
    cell (setCell b r c v) r c = v := by
  have hi : r.toNat < b.length := by
    rw [hs.1]
    omega
  have hrow2 : b.getD r.toNat [] = b[r.toNat] := by
    rw [List.getD_eq_getElem?_getD, List.getElem?_eq_getElem hi, Option.getD_some]
  have hj : c.toNat < (b.getD r.toNat []).length := by
    rw [hrow2, hs.2 _ (List.getElem_mem hi)]
    omega
  rw [cell, setCell, if_pos h, if_pos h]
  simp only [List.getD_eq_getElem?_getD]
  rw [List.getElem?_set_self hi, Option.getD_some,
    List.getElem?_set_self (by simpa only [List.getD_eq_getElem?_getD] using hj),
    Option.getD_some]

lemma cell_setCell_ne {b : Board} {r c r' c' : Int} (v : Option Piece)
    (hne : r ≠ r' ∨ c ≠ c') :
    cell (setCell b r c v) r' c' = cell b r' c' := by
  by_cases h1 : 0 ≤ r ∧ r < 8 ∧ 0 ≤ c ∧ c < 8
  · by_cases h2 : 0 ≤ r' ∧ r' < 8 ∧ 0 ≤ c' ∧ c' < 8
    · rw [cell, cell, setCell, if_pos h1, if_pos h2, if_pos h2]
      simp only [List.getD_eq_getElem?_getD]
      by_cases hr : r.toNat = r'.toNat
      · have hrr : r = r' := by omega
        have hcc : c.toNat ≠ c'.toNat := by
          rcases hne with hx | hx
          · exact absurd hrr hx
          · omega
        rw [List.getElem?_set, if_pos hr]
        by_cases hlen : r.toNat < b.length
        · rw [if_pos hlen, Option.getD_some, List.getElem?_set_ne hcc, hrr]
        · rw [if_neg hlen, Option.getD_none]
          have hnone : b[r'.toNat]? = none := by
            rw [List.getElem?_eq_none_iff]
            omega
          rw [hnone]
          simp
      · rw [List.getElem?_set_ne hr]
    · rw [cell, cell, if_neg h2, if_neg h2]
  · rw [setCell_not_inb v h1]

lemma cell_clearVuln (b : Board) (r c : Int) :
    cell (clearVuln b) r c = (cell b r c).map clearPawnFlag := by
  unfold cell clearVuln
  split
  · simp only [List.getD_eq_getElem?_getD, List.getElem?_map]
    cases hb : b[r.toNat]? with
    | none => simp
    | some row =>
      simp only [Option.map_some', Option.getD_some, List.getElem?_map]
      cases hrow : row[c.toNat]? with
      | none => simp
      | some x => simp
  · simp

lemma shape8_clearVuln {b : Board} (hs : Shape8 b) : Shape8 (clearVuln b) := by
  refine ⟨by simpa [clearVuln] using hs.1, ?_⟩
  intro row hrow
  simp only [clearVuln, List.mem_map] at hrow
  obtain ⟨row0, hmem, hrow0⟩ := hrow
  subst hrow0
  simpa using hs.2 row0 hmem

lemma board_ext {b b' : Board} (hs : Shape8 b) (hs' : Shape8 b')
    (h : ∀ r ∈ coords, ∀ c ∈ coords, cell b r c = cell b' r c) : b = b' := by
  apply List.ext_getElem (by rw [hs.1, hs'.1])
  intro n h1 h2
  apply List.ext_getElem
    (by rw [hs.2 _ (List.getElem_mem h1), hs'.2 _ (List.getElem_mem h2)])
  intro m hm1 hm2
  have hn8 : n < 8 := by
    rw [hs.1] at h1
    exact h1
  have hm8 : m < 8 := by
    rw [hs.2 _ (List.getElem_mem h1)] at hm1
    exact hm1
  have hcell := h ((n : Int))
    (mem_coords.2 ⟨by omega, by omega⟩)
    ((m : Int))
    (mem_coords.2 ⟨by omega, by omega⟩)
  have hval : ∀ (bb : Board), ∀ hx1 : n < bb.length, ∀ hx2 : m < bb[n].length,
      cell bb ((n : Int)) ((m : Int)) = bb[n][m] := by
    intro bb hx1 hx2
    rw [cell, if_pos ⟨by omega, by omega, by omega, by omega⟩]
    simp only [Int.toNat_natCast, List.getD_eq_getElem?_getD]
    rw [List.getElem?_eq_getElem hx1, Option.getD_some,
      List.getElem?_eq_getElem hx2, Option.getD_some]
  rw [hval b h1 hm1, hval b' h2 hm2] at hcell
  exact hcell

/-! ## Claim-side characterizations of attack detection (C5) -/

/-- The attack relation exactly as claim C5 states it: pawn threats are the
two diagonal-forward squares, king threats are exactly the eight adjacent
squares (excluding the square of the king itself), and every other type
threatens exactly its castling-free pseudo-legal destinations. -/
def claim_square_attacked (st : GameState) (row col : Int) (friendly : Color) : Bool :=
  coords.any (fun r => coords.any (fun c =>
    match cell st.board r c with
    | none => false
    | some piece =>
      if piece.color ≠ friendly then
        match piece.piece_type with
        | PieceType.pawn =>
          let d := pawnDir piece.color
          decide (r + d = row ∧ (c - 1 = col ∨ c + 1 = col))
        | PieceType.king =>
          decide ((r - row).natAbs ≤ 1 ∧ (c - col).natAbs ≤ 1 ∧ (r, c) ≠ (row, col))
        | _ => decide ((row, col) ∈ get_moves_without_check_validation st piece)
      else false))

/-- The per-piece threat relation of the amended claim C5: as stated in the
spec except that a king also threatens its own square (Chebyshev distance at
most one rather than exactly the eight adjacent squares). -/
def amendedThreatens (st : GameState) (target : Int × Int) (r c : Int)
    (piece : Piece) : Prop :=
  match piece.piece_type with
  | PieceType.pawn =>
    r + pawnDir piece.color = target.1 ∧ (c - 1 = target.2 ∨ c + 1 = target.2)
  | PieceType.king =>
    (r - target.1).natAbs ≤ 1 ∧ (c - target.2).natAbs ≤ 1
  | _ => target ∈ get_moves_without_check_validation st piece

/-! ## Claim theorems -/

set_option maxRecDepth 8000
set_option maxHeartbeats 1600000

/-- C9 (counterexample): on the fresh initial board the union over all
sixteen White pieces of their legal-move destination sets has 16 elements,
not 20 — the four knight destinations coincide with pawn single-push
squares. -/
theorem c9_counterexample :
    (((piecesOf initialState Color.white).map
      (fun p => (get_valid_moves initialState p).1)).flatten.dedup).length ≠ 20 ∧
    (((piecesOf initialState Color.white).map
      (fun p => (get_valid_moves initialState p).1)).flatten.dedup).length = 16 := by
  decide

/-- C9 (amended): on the fresh initial board the total number of
(piece, destination) legal-move pairs over the sixteen White pieces is
exactly 20 — 16 contributed by pawns and 4 by knights — and the same count
holds for Black. -/
theorem c9_amended :
    ((piecesOf initialState Color.white).map
      (fun p => (get_valid_moves initialState p).1.length)).sum = 20 ∧
    (((piecesOf initialState Color.white).filter
      (fun p => p.piece_type = PieceType.pawn)).map
      (fun p => (get_valid_moves initialState p).1.length)).sum = 16 ∧
    (((piecesOf initialState Color.white).filter
      (fun p => p.piece_type = PieceType.knight)).map
      (fun p => (get_valid_moves initialState p).1.length)).sum = 4 ∧
    ((piecesOf initialState Color.black).map
      (fun p => (get_valid_moves initialState p).1.length)).sum = 20 := by
  decide

/-- C7: with the `KNIGHT_EXTENDED_RANGE` modifier active, a knight at row 4,
column 3 with no blocking occupancy has row 1, column 2 (a (3,1)-type
secondary offset) in its legal-move set, and does not have it with the
modifier inactive. -/
theorem c7_extended_knight :
    (1, 2) ∈ (get_valid_moves_with_mods (stateOf c7Board Color.white) c7Knight
      [PowerUpType.KNIGHT_EXTENDED_RANGE]).1 ∧
    (1, 2) ∉ (get_valid_moves_with_mods (stateOf c7Board Color.white) c7Knight []).1 := by
  decide

/-- C10: whenever the `move_piece` guard fails — the piece argument is null
or the destination is not in the cached `valid_moves` list — the call returns
`False` with the state (grid, every piece, turn, en-passant target, last
move, selection, cache) exactly as before. -/
theorem c10_guard_no_mutation (st : GameState) (pc : Option Piece)
    (t : Int × Int) (h : pc = none ∨ t ∉ st.valid_moves) :
    move_piece st pc t = some (false, st) := by
  rcases h with h | h
  · subst h
    rfl
  · cases pc with
    | none => rfl
    | some p =>
      rw [move_piece, if_neg h]

/-- C10 (witness): the guard-failure no-op at a concrete input. -/
theorem c10_witness :
    move_piece initialState none (0, 0) = some (false, initialState) :=
  c10_guard_no_mutation initialState none (0, 0) (Or.inl rfl)

/-- C3 (counterexample): with the legal moves of the white e2 pawn cached,
`move_piece` called on the black e7 pawn and destination (5,4) executes and
returns `True`, although (5,4) is not a legal move of that pawn and it is not
the turn of Black — refuting the claimed equivalence. -/
theorem c3_counterexample :
    (move_piece c3State (some e7Pawn) (5, 4)).map (fun r => r.1) = some true ∧
    (5, 4) ∉ (get_valid_moves c3State e7Pawn).1 ∧
    cell c3State.board 1 4 = some e7Pawn ∧
    e7Pawn.color ≠ c3State.current_turn ∧
    (move_piece c3State (some e7Pawn) (5, 4)).map
      (fun r => decide (r.2.board ≠ c3State.board)) = some true := by
  decide

/-- C3 (amended): `move_piece` executes and returns `True` exactly when the
piece argument is non-null and the destination is in the cached
`self.valid_moves` list (regardless of whose turn it is or which piece that
cache was computed for); whenever the guard fails it is a no-op returning
`False`. -/
theorem c3_guard_characterization (st : GameState) (pc : Option Piece)
    (t : Int × Int) :
    ((pc = none ∨ t ∉ st.valid_moves) → move_piece st pc t = some (false, st)) ∧
    (∀ bres st', move_piece st pc t = some (bres, st') →
      (bres = true ↔ (pc ≠ none ∧ t ∈ st.valid_moves))) := by
  constructor
  · exact c10_guard_no_mutation st pc t
  · intro bres st' hrun
    cases pc with
    | none =>
      rw [move_piece] at hrun
      have h1 : bres = false := by
        injection hrun with hrun
        injection hrun with h1 h2
        exact h1.symm
      subst h1
      simp
    | some p =>
      by_cases hm : t ∈ st.valid_moves
      · rw [move_piece, if_pos hm] at hrun
        rw [Option.map_eq_some'] at hrun
        obtain ⟨b1, _, heq⟩ := hrun
        have h1 : bres = true := congrArg Prod.fst heq.symm
        subst h1
        simp [hm]
      · rw [move_piece, if_neg hm] at hrun
        have h1 : bres = false := by
          injection hrun with hrun
          injection hrun with h1 h2
          exact h1.symm
        subst h1
        simp [hm]

/-- C3 (amended, witness): the characterization applied at a concrete
executing call. -/
theorem c3_witness :
    (true = true ↔ (some e7Pawn ≠ none ∧ ((5 : Int), (4 : Int)) ∈ c3State.valid_moves)) :=
  (c3_guard_characterization c3State (some e7Pawn) (5, 4)).2 true
    ((move_piece c3State (some e7Pawn) (5, 4)).getD (false, c3State)).2
    (by decide)

/-- C5 (counterexample): a square holding an enemy king is reported as under
attack by the code, but the characterization of the claim — king threats
exactly the eight adjacent squares — reports no threat there. -/
theorem c5_counterexample :
    is_square_under_attack (stateOf c5Board Color.white) 4 4 Color.white = true ∧
    claim_square_attacked (stateOf c5Board Color.white) 4 4 Color.white = false := by
  decide

/-- C2 (counterexample): on a board holding an unmoved white king away from
its home square (with a castleable configuration on the home rank), the
castling candidate (7,6) is pseudo-legal for that king, yet
`would_move_cause_check` relocates the black queen found on file 7 of the
row of that king and its restore erases the black bishop: the grid after the
call differs from the grid before it. -/
theorem c2_counterexample :
    cell c2Board 3 4 = some c2King ∧ c2King.position = (3, 4) ∧
    WellFormed c2Board ∧
    (7, 6) ∈ pseudoMoves (stateOf c2Board Color.white) c2King ∧
    (would_move_cause_check (stateOf c2Board Color.white) c2King (7, 6)).2 ≠ c2Board := by
  decide

/-- C1 (counterexample): a position reached from the initial state through
the select-then-move interface, in which Black, to move, is offered the
en-passant capture (4,6) to (5,5) by `get_valid_moves`; committing it with
`move_piece` removes the captured pawn and leaves the black king attacked by
the white rook along row 4. -/
theorem c1_counterexample :
    ((playMoves initialState c1Trace).bind
      (fun st => selectAndMove st (4, 6) (5, 5))).map
      (fun st2 => is_king_in_check st2 Color.black) = some true := by
  decide

/-- The attack scan answers true exactly when some opposing piece satisfies
the per-type threat relation (shared bridge between the scan and its
specification-level reading). -/
lemma attack_iff_exists (st : GameState) (row col : Int)
    (friendly : Color) :
    is_square_under_attack st row col friendly = true ↔
      ∃ r c piece, cell st.board r c = some piece ∧ piece.color ≠ friendly ∧
        amendedThreatens st (row, col) r c piece := by
  unfold is_square_under_attack
  rw [List.any_eq_true]
  constructor
  · rintro ⟨r, hr, hinner⟩
    rw [List.any_eq_true] at hinner
    obtain ⟨c, hc, hbody⟩ := hinner
    cases hcell : cell st.board r c with
    | none =>
      rw [hcell] at hbody
      exact absurd hbody (by simp)
    | some piece =>
      rw [hcell] at hbody
      dsimp only at hbody
      by_cases hcol : piece.color ≠ friendly
      · rw [if_pos hcol] at hbody
        refine ⟨r, c, piece, hcell, hcol, ?_⟩
        unfold amendedThreatens
        obtain ⟨pt, pcol, ppos, phm, pep⟩ := piece
        cases pt <;> exact of_decide_eq_true hbody
      · rw [if_neg hcol] at hbody
        exact absurd hbody (by simp)
  · rintro ⟨r, c, piece, hcell, hcol, hthr⟩
    have hb := cell_bounds hcell
    refine ⟨r, mem_coords.2 ⟨hb.1, hb.2.1⟩, ?_⟩
    rw [List.any_eq_true]
    refine ⟨c, mem_coords.2 ⟨hb.2.2.1, hb.2.2.2⟩, ?_⟩
    rw [hcell]
    dsimp only
    rw [if_pos hcol]
    unfold amendedThreatens at hthr
    obtain ⟨pt, pcol, ppos, phm, pep⟩ := piece
    cases pt <;> exact decide_eq_true hthr

/-- C5 (amended): `is_square_under_attack` returns true exactly when some
opposing piece threatens the square, where pawn threats are the two
diagonal-forward squares (forward pushes and en passant never count), king
threats are the squares at Chebyshev distance at most one (the eight
adjacent squares and the square of the king itself), and every other piece
type threatens exactly its castling-free pseudo-legal destinations.  The
castling exclusion is what makes the definitions of this file structurally
terminating. -/
theorem c5_attack_characterization (st : GameState) (row col : Int)
    (friendly : Color) :
    is_square_under_attack st row col friendly = true ↔
      ∃ r c piece, cell st.board r c = some piece ∧ piece.color ≠ friendly ∧
        amendedThreatens st (row, col) r c piece :=
  attack_iff_exists st row col friendly

/-- C5 (amended, witness): the characterization applied on the initial
board, where the black b7 pawn threatens the square (2,0). -/
theorem c5_witness :
    ∃ r c piece, cell initialState.board r c = some piece ∧
      piece.color ≠ Color.white ∧
      amendedThreatens initialState (2, 0) r c piece :=
  (c5_attack_characterization initialState 2 0 Color.white).mp (by decide)

/-- C5 (amended, forward witness): the scan itself is true there. -/
theorem c5_witness_concrete :
    is_square_under_attack initialState 2 0 Color.white = true :=
  (c5_attack_characterization initialState 2 0 Color.white).mpr
    ⟨1, 1, mkPiece PieceType.pawn Color.black (1, 1), by decide, by decide,
      by exact ⟨by decide, Or.inl (by decide)⟩⟩

/-! ## Castling eligibility (C4) -/

/-- `rayFrom` unrolls one step when the scanned square is empty. -/
lemma rayFrom_step_empty {b : Board} {pc : Color} {row col dr dc : Int}
    {k : Nat} {i nr nc : Int}
    (hnr : nr = row + i * dr) (hnc : nc = col + i * dc)
    (hval : is_valid_position nr nc = true) (hcell : cell b nr nc = none) :
    rayFrom b pc row col dr dc (k + 1) i =
      (nr, nc) :: rayFrom b pc row col dr dc k (i + 1) := by
  subst hnr
  subst hnc
  rw [rayFrom]
  rw [if_pos hval, hcell]

/-- The first square of a ray is generated when empty. -/
lemma mem_rayFrom_one {b : Board} {pc : Color} {row col dr dc nr nc : Int}
    (hnr : nr = row + 1 * dr) (hnc : nc = col + 1 * dc)
    (hval : is_valid_position nr nc = true) (hcell : cell b nr nc = none) :
    (nr, nc) ∈ rayFrom b pc row col dr dc 7 1 := by
  show (nr, nc) ∈ rayFrom b pc row col dr dc (6 + 1) 1
  rw [rayFrom_step_empty hnr hnc hval hcell]
  exact List.mem_cons_self _ _

/-- The second square of a ray is generated when the first two are empty. -/
lemma mem_rayFrom_two {b : Board} {pc : Color} {row col dr dc : Int}
    {m1r m1c nr nc : Int}
    (h1r : m1r = row + 1 * dr) (h1c : m1c = col + 1 * dc)
    (hval1 : is_valid_position m1r m1c = true) (hcell1 : cell b m1r m1c = none)
    (hnr : nr = row + 2 * dr) (hnc : nc = col + 2 * dc)
    (hval : is_valid_position nr nc = true) (hcell : cell b nr nc = none) :
    (nr, nc) ∈ rayFrom b pc row col dr dc 7 1 := by
  show (nr, nc) ∈ rayFrom b pc row col dr dc (6 + 1) 1
  rw [rayFrom_step_empty h1r h1c hval1 hcell1]
  apply List.mem_cons_of_mem
  show (nr, nc) ∈ rayFrom b pc row col dr dc (5 + 1) (1 + 1)
  rw [rayFrom_step_empty (i := 1 + 1) (by rw [hnr]; ring) (by rw [hnc]; ring)
    hval hcell]
  exact List.mem_cons_self _ _

/-- The eligibility conjunction exactly as claim C4 states it for the
kingside: own king and rook on their original squares, neither moved, the
squares strictly between them empty, and the origin, transit, and
destination squares of the king all unattacked. -/
def claimCastleKingside (st : GameState) (color : Color) : Prop :=
  (∃ king, cell st.board (homeRow color) 4 = some king ∧
    king.piece_type = PieceType.king ∧ king.color = color ∧ king.has_moved = false) ∧
  (∃ rook, cell st.board (homeRow color) 7 = some rook ∧
    rook.piece_type = PieceType.rook ∧ rook.color = color ∧ rook.has_moved = false) ∧
  cell st.board (homeRow color) 5 = none ∧
  cell st.board (homeRow color) 6 = none ∧
  is_square_under_attack st (homeRow color) 4 color = false ∧
  is_square_under_attack st (homeRow color) 5 color = false ∧
  is_square_under_attack st (homeRow color) 6 color = false

/-- The eligibility conjunction exactly as claim C4 states it for the
queenside. -/
def claimCastleQueenside (st : GameState) (color : Color) : Prop :=
  (∃ king, cell st.board (homeRow color) 4 = some king ∧
    king.piece_type = PieceType.king ∧ king.color = color ∧ king.has_moved = false) ∧
  (∃ rook, cell st.board (homeRow color) 0 = some rook ∧
    rook.piece_type = PieceType.rook ∧ rook.color = color ∧ rook.has_moved = false) ∧
  cell st.board (homeRow color) 1 = none ∧
  cell st.board (homeRow color) 2 = none ∧
  cell st.board (homeRow color) 3 = none ∧
  is_square_under_attack st (homeRow color) 4 color = false ∧
  is_square_under_attack st (homeRow color) 3 color = false ∧
  is_square_under_attack st (homeRow color) 2 color = false

lemma can_castle_kingside_iff (st : GameState) (color : Color)
    (hwf : WellFormed st.board) :
    can_castle_kingside st color = true ↔ claimCastleKingside st color := by
  constructor
  · intro h
    rw [can_castle_kingside] at h
    cases hk : cell st.board (homeRow color) 4 with
    | none =>
      cases hr : cell st.board (homeRow color) 7 with
      | none => rw [hk, hr] at h; exact Bool.noConfusion h
      | some rook => rw [hk, hr] at h; exact Bool.noConfusion h
    | some king =>
      cases hr : cell st.board (homeRow color) 7 with
      | none => rw [hk, hr] at h; exact Bool.noConfusion h
      | some rook =>
        rw [hk, hr] at h
        dsimp only at h
        by_cases hty : king.piece_type = PieceType.king ∧ rook.piece_type = PieceType.rook
        case neg => rw [if_neg hty] at h; exact Bool.noConfusion h
        rw [if_pos hty] at h
        by_cases hmv : (king.has_moved || rook.has_moved) = true
        case pos => rw [if_pos hmv] at h; exact Bool.noConfusion h
        rw [if_neg hmv] at h
        by_cases hocc : ((cell st.board (homeRow color) 5).isSome ||
            (cell st.board (homeRow color) 6).isSome) = true
        case pos => rw [if_pos hocc] at h; exact Bool.noConfusion h
        rw [if_neg hocc] at h
        by_cases hatk : (is_square_under_attack st (homeRow color) 4 color ||
            is_square_under_attack st (homeRow color) 5 color ||
            is_square_under_attack st (homeRow color) 6 color) = true
        case pos => rw [if_pos hatk] at h; exact Bool.noConfusion h
        have hmv2 : king.has_moved = false ∧ rook.has_moved = false := by
          revert hmv
          cases king.has_moved <;> cases rook.has_moved <;> simp
        have hocc2 : cell st.board (homeRow color) 5 = none ∧
            cell st.board (homeRow color) 6 = none := by
          revert hocc
          cases hc5 : cell st.board (homeRow color) 5 <;>
            cases hc6 : cell st.board (homeRow color) 6 <;> simp
        have hatk2 : is_square_under_attack st (homeRow color) 4 color = false ∧
            is_square_under_attack st (homeRow color) 5 color = false ∧
            is_square_under_attack st (homeRow color) 6 color = false := by
          revert hatk
          cases is_square_under_attack st (homeRow color) 4 color <;>
            cases is_square_under_attack st (homeRow color) 5 color <;>
            cases is_square_under_attack st (homeRow color) 6 color <;> simp
        have hkc : king.color = color := by
          by_contra hne
          have hattack : is_square_under_attack st (homeRow color) 4 color = true := by
            apply (attack_iff_exists st (homeRow color) 4 color).mpr
            refine ⟨homeRow color, 4, king, hk, hne, ?_⟩
            unfold amendedThreatens
            rw [hty.1]
            exact ⟨by simp, by simp⟩
          rw [hattack] at hatk2
          exact Bool.noConfusion hatk2.1
        have hrc : rook.color = color := by
          by_contra hne
          have hpos : rook.position = (homeRow color, 7) := hwf.position hr
          have hmem : ((homeRow color, 6) : Int × Int) ∈
              get_moves_without_check_validation st rook := by
            unfold get_moves_without_check_validation
            rw [hty.2]
            unfold get_rook_moves
            rw [hpos]
            dsimp only
            apply List.mem_flatMap.mpr
            refine ⟨(0, -1), by decide, ?_⟩
            dsimp only
            exact mem_rayFrom_one (by ring) (by norm_num)
              (by cases color <;> decide) hocc2.2
          have hattack : is_square_under_attack st (homeRow color) 6 color = true := by
            apply (attack_iff_exists st (homeRow color) 6 color).mpr
            refine ⟨homeRow color, 7, rook, hr, hne, ?_⟩
            unfold amendedThreatens
            rw [hty.2]
            exact hmem
          rw [hattack] at hatk2
          exact Bool.noConfusion hatk2.2.2
        exact ⟨⟨king, hk, hty.1, hkc, hmv2.1⟩, ⟨rook, hr, hty.2, hrc, hmv2.2⟩,
          hocc2.1, hocc2.2, hatk2.1, hatk2.2.1, hatk2.2.2⟩
  · rintro ⟨⟨king, hk, hkt, hkc, hkm⟩, ⟨rook, hr, hrt, hrc, hrm⟩, h5, h6, ha4, ha5, ha6⟩
    rw [can_castle_kingside, hk, hr]
    dsimp only
    rw [if_pos ⟨hkt, hrt⟩, hkm, hrm, h5, h6, ha4, ha5, ha6]
    simp

lemma can_castle_queenside_iff (st : GameState) (color : Color)
    (hwf : WellFormed st.board) :
    can_castle_queenside st color = true ↔ claimCastleQueenside st color := by
  constructor
  · intro h
    rw [can_castle_queenside] at h
    cases hk : cell st.board (homeRow color) 4 with
    | none =>
      cases hr : cell st.board (homeRow color) 0 with
      | none => rw [hk, hr] at h; exact Bool.noConfusion h
      | some rook => rw [hk, hr] at h; exact Bool.noConfusion h
    | some king =>
      cases hr : cell st.board (homeRow color) 0 with
      | none => rw [hk, hr] at h; exact Bool.noConfusion h
      | some rook =>
        rw [hk, hr] at h
        dsimp only at h
        by_cases hty : king.piece_type = PieceType.king ∧ rook.piece_type = PieceType.rook
        case neg => rw [if_neg hty] at h; exact Bool.noConfusion h
        rw [if_pos hty] at h
        by_cases hmv : (king.has_moved || rook.has_moved) = true
        case pos => rw [if_pos hmv] at h; exact Bool.noConfusion h
        rw [if_neg hmv] at h
        by_cases hocc : ((cell st.board (homeRow color) 1).isSome ||
            (cell st.board (homeRow color) 2).isSome ||
            (cell st.board (homeRow color) 3).isSome) = true
        case pos => rw [if_pos hocc] at h; exact Bool.noConfusion h
        rw [if_neg hocc] at h
        by_cases hatk : (is_square_under_attack st (homeRow color) 4 color ||
            is_square_under_attack st (homeRow color) 3 color ||
            is_square_under_attack st (homeRow color) 2 color) = true
        case pos => rw [if_pos hatk] at h; exact Bool.noConfusion h
        have hmv2 : king.has_moved = false ∧ rook.has_moved = false := by
          revert hmv
          cases king.has_moved <;> cases rook.has_moved <;> simp
        have hocc2 : cell st.board (homeRow color) 1 = none ∧
            cell st.board (homeRow color) 2 = none ∧
            cell st.board (homeRow color) 3 = none := by
          revert hocc
          cases hc1 : cell st.board (homeRow color) 1 <;>
            cases hc2 : cell st.board (homeRow color) 2 <;>
            cases hc3 : cell st.board (homeRow color) 3 <;> simp
        have hatk2 : is_square_under_attack st (homeRow color) 4 color = false ∧
            is_square_under_attack st (homeRow color) 3 color = false ∧
            is_square_under_attack st (homeRow color) 2 color = false := by
          revert hatk
          cases is_square_under_attack st (homeRow color) 4 color <;>
            cases is_square_under_attack st (homeRow color) 3 color <;>
            cases is_square_under_attack st (homeRow color) 2 color <;> simp
        have hkc : king.color = color := by
          by_contra hne
          have hattack : is_square_under_attack st (homeRow color) 4 color = true := by
            apply (attack_iff_exists st (homeRow color) 4 color).mpr
            refine ⟨homeRow color, 4, king, hk, hne, ?_⟩
            unfold amendedThreatens
            rw [hty.1]
            exact ⟨by simp, by simp⟩
          rw [hattack] at hatk2
          exact Bool.noConfusion hatk2.1
        have hrc : rook.color = color := by
          by_contra hne
          have hpos : rook.position = (homeRow color, 0) := hwf.position hr
          have hmem : ((homeRow color, 2) : Int × Int) ∈
              get_moves_without_check_validation st rook := by
            unfold get_moves_without_check_validation
            rw [hty.2]
            unfold get_rook_moves
            rw [hpos]
            dsimp only
            apply List.mem_flatMap.mpr
            refine ⟨(0, 1), by decide, ?_⟩
            dsimp only
            exact mem_rayFrom_two (by ring) (by norm_num)
              (by cases color <;> decide) hocc2.1 (by ring) (by norm_num)
              (by cases color <;> decide) hocc2.2.1
          have hattack : is_square_under_attack st (homeRow color) 2 color = true := by
            apply (attack_iff_exists st (homeRow color) 2 color).mpr
            refine ⟨homeRow color, 0, rook, hr, hne, ?_⟩
            unfold amendedThreatens
            rw [hty.2]
            exact hmem
          rw [hattack] at hatk2
          exact Bool.noConfusion hatk2.2.2
        exact ⟨⟨king, hk, hty.1, hkc, hmv2.1⟩, ⟨rook, hr, hty.2, hrc, hmv2.2⟩,
          hocc2.1, hocc2.2.1, hocc2.2.2, hatk2.1, hatk2.2.1, hatk2.2.2⟩
  · rintro ⟨⟨king, hk, hkt, hkc, hkm⟩, ⟨rook, hr, hrt, hrc, hrm⟩, h1, h2, h3,
      ha4, ha3, ha2⟩
    rw [can_castle_queenside, hk, hr]
    dsimp only
    rw [if_pos ⟨hkt, hrt⟩, hkm, hrm, h1, h2, h3, ha4, ha3, ha2]
    simp

/-- C4: for every wellformed board state and color, `can_castle_kingside`
(resp. `can_castle_queenside`) returns true exactly when the own king and
the relevant own rook stand unmoved on their original squares, every square
strictly between them is empty, and the origin, transit, and destination
squares of the king are all unattacked by the opposing color. -/
theorem c4_castle_characterization (st : GameState) (color : Color)
    (hwf : WellFormed st.board) :
    (can_castle_kingside st color = true ↔ claimCastleKingside st color) ∧
    (can_castle_queenside st color = true ↔ claimCastleQueenside st color) :=
  ⟨can_castle_kingside_iff st color hwf, can_castle_queenside_iff st color hwf⟩

/-- C4 (witness): the characterization applied on the initial board, where
both predicates are false because the squares between king and rooks are
occupied. -/
theorem c4_witness :
    (can_castle_kingside initialState Color.white = true ↔
      claimCastleKingside initialState Color.white) ∧
    (can_castle_queenside initialState Color.white = true ↔
      claimCastleQueenside initialState Color.white) :=
  c4_castle_characterization initialState Color.white (by decide)

/-! ## Membership shape lemmas for the generators -/

/-- Membership in a conditional singleton. -/
lemma mem_if_singleton {α : Type} {c : Prop} [Decidable c] {x t : α}
    (h : t ∈ (if c then [x] else [])) : t = x := by
  revert h
  split
  · intro h
    exact List.mem_singleton.mp h
  · intro h
    exact absurd h (List.not_mem_nil _)

/-- Every jump target arises from one of the offsets. -/
lemma mem_jumpTargets {b : Board} {pc : Color} {row col : Int}
    {offsets : List (Int × Int)} {t : Int × Int}
    (h : t ∈ jumpTargets b pc row col offsets) :
    ∃ dd ∈ offsets, t = (row + dd.1, col + dd.2) := by
  unfold jumpTargets at h
  rw [List.mem_flatMap] at h
  obtain ⟨dd, hdd, hmem⟩ := h
  refine ⟨dd, hdd, ?_⟩
  revert hmem
  dsimp only
  split
  · split
    · intro hmem
      exact List.mem_singleton.mp hmem
    · intro hmem
      exact mem_if_singleton hmem
  · intro hmem
    exact absurd hmem (List.not_mem_nil _)

/-- Every square of a ray lies at a positive multiple of the direction. -/
lemma mem_rayFrom_shape {b : Board} {pc : Color} {row col dr dc : Int} :
    ∀ {k : Nat} {i : Int} {t : Int × Int},
      t ∈ rayFrom b pc row col dr dc k i →
      ∃ j : Int, i ≤ j ∧ t = (row + j * dr, col + j * dc) := by
  intro k
  induction k with
  | zero =>
    intro i t h
    rw [rayFrom] at h
    exact absurd h (List.not_mem_nil _)
  | succ k ih =>
    intro i t h
    rw [rayFrom] at h
    revert h
    split
    · split
      · intro h
        rcases List.mem_cons.mp h with heq | htail
        · exact ⟨i, le_refl _, heq⟩
        · obtain ⟨j, hij, hj⟩ := ih htail
          exact ⟨j, by omega, hj⟩
      · intro h
        exact ⟨i, le_refl _, mem_if_singleton h⟩
    · intro h
      exact absurd h (List.not_mem_nil _)

/-- Rook destinations differ from the rook square. -/
lemma mem_rook_ne {st : GameState} {p : Piece} {t : Int × Int}
    (h : t ∈ get_rook_moves st p) : t ≠ p.position := by
  unfold get_rook_moves at h
  rw [List.mem_flatMap] at h
  obtain ⟨dd, hdd, hray⟩ := h
  obtain ⟨j, hij, hj⟩ := mem_rayFrom_shape hray
  have hne0 : dd.1 ≠ 0 ∨ dd.2 ≠ 0 := by
    rcases (by simpa using hdd :
        dd = ((0 : Int), (-1 : Int)) ∨ dd = (0, 1) ∨ dd = (-1, 0) ∨ dd = (1, 0)) with
      h | h | h | h <;> rw [h] <;> decide
  intro hcontra
  rw [hj, Prod.ext_iff] at hcontra
  dsimp only at hcontra
  obtain ⟨h1, h2⟩ := hcontra
  have hj0 : j ≠ 0 := by omega
  rcases hne0 with hx | hx
  · have hmul : j * dd.1 ≠ 0 := mul_ne_zero hj0 hx
    omega
  · have hmul : j * dd.2 ≠ 0 := mul_ne_zero hj0 hx
    omega

/-- Bishop destinations differ from the bishop square. -/
lemma mem_bishop_ne {st : GameState} {p : Piece} {t : Int × Int}
    (h : t ∈ get_bishop_moves st p) : t ≠ p.position := by
  unfold get_bishop_moves at h
  rw [List.mem_flatMap] at h
  obtain ⟨dd, hdd, hray⟩ := h
  obtain ⟨j, hij, hj⟩ := mem_rayFrom_shape hray
  have hne0 : dd.1 ≠ 0 ∨ dd.2 ≠ 0 := by
    rcases (by simpa using hdd :
        dd = ((-1 : Int), (-1 : Int)) ∨ dd = (-1, 1) ∨ dd = (1, -1) ∨ dd = (1, 1)) with
      h | h | h | h <;> rw [h] <;> decide
  intro hcontra
  rw [hj, Prod.ext_iff] at hcontra
  dsimp only at hcontra
  obtain ⟨h1, h2⟩ := hcontra
  have hj0 : j ≠ 0 := by omega
  rcases hne0 with hx | hx
  · have hmul : j * dd.1 ≠ 0 := mul_ne_zero hj0 hx
    omega
  · have hmul : j * dd.2 ≠ 0 := mul_ne_zero hj0 hx
    omega

/-- Knight destinations differ from the knight square. -/
lemma mem_knight_ne {st : GameState} {p : Piece} {t : Int × Int}
    (h : t ∈ get_knight_moves st p) : t ≠ p.position := by
  obtain ⟨dd, hdd, hj⟩ := mem_jumpTargets h
  have hne0 : dd.1 ≠ 0 ∨ dd.2 ≠ 0 := by
    rcases (by simpa [knightOffsets] using hdd :
        dd = ((-2 : Int), (-1 : Int)) ∨ dd = (-2, 1) ∨ dd = (-1, -2) ∨ dd = (-1, 2) ∨
        dd = (1, -2) ∨ dd = (1, 2) ∨ dd = (2, -1) ∨ dd = (2, 1)) with
      h | h | h | h | h | h | h | h <;> rw [h] <;> decide
  intro hcontra
  rw [hj, Prod.ext_iff] at hcontra
  dsimp only at hcontra
  obtain ⟨h1, h2⟩ := hcontra
  rcases hne0 with hx | hx <;> omega

/-- One-square king destinations differ from the king square. -/
lemma mem_kingAdjacent_ne {st : GameState} {p : Piece} {t : Int × Int}
    (h : t ∈ kingAdjacentMoves st p) : t ≠ p.position := by
  obtain ⟨dd, hdd, hj⟩ := mem_jumpTargets h
  have hne0 : dd.1 ≠ 0 ∨ dd.2 ≠ 0 := by
    rcases (by simpa [kingOffsets] using hdd :
        dd = ((-1 : Int), (-1 : Int)) ∨ dd = (-1, 0) ∨ dd = (-1, 1) ∨ dd = (0, -1) ∨
        dd = (0, 1) ∨ dd = (1, -1) ∨ dd = (1, 0) ∨ dd = (1, 1)) with
      h | h | h | h | h | h | h | h <;> rw [h] <;> decide
  intro hcontra
  rw [hj, Prod.ext_iff] at hcontra
  dsimp only at hcontra
  obtain ⟨h1, h2⟩ := hcontra
  rcases hne0 with hx | hx <;> omega

/-- One-square king destinations change the column by at most one. -/
lemma mem_kingAdjacent_close {st : GameState} {p : Piece} {t : Int × Int}
    (h : t ∈ kingAdjacentMoves st p) : (p.position.2 - t.2).natAbs ≤ 1 := by
  obtain ⟨dd, hdd, hj⟩ := mem_jumpTargets h
  have hdd2 : -1 ≤ dd.2 ∧ dd.2 ≤ 1 := by
    rcases (by simpa [kingOffsets] using hdd :
        dd = ((-1 : Int), (-1 : Int)) ∨ dd = (-1, 0) ∨ dd = (-1, 1) ∨ dd = (0, -1) ∨
        dd = (0, 1) ∨ dd = (1, -1) ∨ dd = (1, 0) ∨ dd = (1, 1)) with
      h | h | h | h | h | h | h | h <;> rw [h] <;> decide
  rw [hj]
  dsimp only
  omega

/-- Every pawn destination is a single push, a double push, or a diagonal
step. -/
lemma mem_pawn_cases {st : GameState} {p : Piece} {t : Int × Int}
    (h : t ∈ get_pawn_moves st p) :
    t = (p.position.1 + pawnDir p.color, p.position.2) ∨
    t = (p.position.1 + 2 * pawnDir p.color, p.position.2) ∨
    (∃ off : Int, (off = -1 ∨ off = 1) ∧
      t = (p.position.1 + pawnDir p.color, p.position.2 + off)) := by
  unfold get_pawn_moves at h
  dsimp only at h
  rw [List.mem_append] at h
  rcases h with h | h
  · revert h
    split
    · intro h
      rcases List.mem_cons.mp h with heq | htail
      · exact Or.inl heq
      · exact Or.inr (Or.inl (mem_if_singleton htail))
    · intro h
      exact absurd h (List.not_mem_nil _)
  · rw [List.mem_flatMap] at h
    obtain ⟨off, hoff, hmem⟩ := h
    have hoff2 : off = -1 ∨ off = 1 := by simpa using hoff
    refine Or.inr (Or.inr ⟨off, hoff2, ?_⟩)
    revert hmem
    split
    · intro hmem
      rw [List.mem_append] at hmem
      rcases hmem with hmem | hmem
      · revert hmem
        split
        · intro hmem
          exact mem_if_singleton hmem
        · intro hmem
          exact absurd hmem (List.not_mem_nil _)
      · exact mem_if_singleton hmem
    · intro hmem
      exact absurd hmem (List.not_mem_nil _)

/-- Pawn destinations differ from the pawn square. -/
lemma mem_pawn_ne {st : GameState} {p : Piece} {t : Int × Int}
    (h : t ∈ get_pawn_moves st p) : t ≠ p.position := by
  have hd : pawnDir p.color = -1 ∨ pawnDir p.color = 1 := by
    unfold pawnDir
    split
    · exact Or.inl rfl
    · exact Or.inr rfl
  intro hcontra
  rcases mem_pawn_cases h with hc | hc | ⟨off, _, hc⟩ <;>
    rw [hc, Prod.ext_iff] at hcontra <;> dsimp only at hcontra <;>
    obtain ⟨h1, h2⟩ := hcontra <;> omega

/-! ## Restore algebra (C2) -/

lemma set_restore_one {b : Board} (hs : Shape8 b) (ar ac : Int) (v1 : Option Piece) :
    setCell (setCell b ar ac v1) ar ac (cell b ar ac) = b := by
  by_cases hA : 0 ≤ ar ∧ ar < 8 ∧ 0 ≤ ac ∧ ac < 8
  · apply board_ext (shape8_setCell (shape8_setCell hs _ _ _) _ _ _) hs
    intro r hr c hc
    by_cases heq : ar = r ∧ ac = c
    · obtain ⟨h1, h2⟩ := heq
      subst h1
      subst h2
      rw [cell_setCell_same (shape8_setCell hs _ _ _) _ hA]
    · have hne : ar ≠ r ∨ ac ≠ c := by tauto
      rw [cell_setCell_ne _ hne, cell_setCell_ne _ hne]
  · rw [setCell_not_inb _ hA, setCell_not_inb _ hA]

lemma set_restore_two {b : Board} (hs : Shape8 b) {ar ac br bc : Int}
    (hne : ar ≠ br ∨ ac ≠ bc) (v1 v2 : Option Piece) :
    setCell (setCell (setCell (setCell b ar ac v1) br bc v2) ar ac (cell b ar ac))
      br bc (cell b br bc) = b := by
  by_cases hB : 0 ≤ br ∧ br < 8 ∧ 0 ≤ bc ∧ bc < 8
  · by_cases hA : 0 ≤ ar ∧ ar < 8 ∧ 0 ≤ ac ∧ ac < 8
    · have hs1 : Shape8 (setCell b ar ac v1) := shape8_setCell hs _ _ _
      have hs2 : Shape8 (setCell (setCell b ar ac v1) br bc v2) := shape8_setCell hs1 _ _ _
      have hs3 : Shape8 (setCell (setCell (setCell b ar ac v1) br bc v2) ar ac
          (cell b ar ac)) := shape8_setCell hs2 _ _ _
      apply board_ext (shape8_setCell hs3 _ _ _) hs
      intro r hr c hc
      by_cases hqB : br = r ∧ bc = c
      · obtain ⟨h1, h2⟩ := hqB
        subst h1
        subst h2
        rw [cell_setCell_same hs3 _ hB]
      · have hneB : br ≠ r ∨ bc ≠ c := by tauto
        rw [cell_setCell_ne _ hneB]
        by_cases hqA : ar = r ∧ ac = c
        · obtain ⟨h1, h2⟩ := hqA
          subst h1
          subst h2
          rw [cell_setCell_same hs2 _ hA]
        · have hneA : ar ≠ r ∨ ac ≠ c := by tauto
          rw [cell_setCell_ne _ hneA, cell_setCell_ne _ hneB, cell_setCell_ne _ hneA]
    · rw [setCell_not_inb _ hA, setCell_not_inb _ hA]
      exact set_restore_one hs br bc v2
  · rw [setCell_not_inb _ hB, setCell_not_inb _ hB]
    exact set_restore_one hs ar ac v1

lemma set_restore_gen {b M : Board} (hsb : Shape8 b) (hsM : Shape8 M)
    {a1 b1 a2 b2 a3 b3 a4 b4 : Int}
    (hA : 0 ≤ a1 ∧ a1 < 8 ∧ 0 ≤ b1 ∧ b1 < 8)
    (hB : 0 ≤ a2 ∧ a2 < 8 ∧ 0 ≤ b2 ∧ b2 < 8)
    (hC : 0 ≤ a3 ∧ a3 < 8 ∧ 0 ≤ b3 ∧ b3 < 8)
    (hD : 0 ≤ a4 ∧ a4 < 8 ∧ 0 ≤ b4 ∧ b4 < 8)
    (hout : ∀ r c : Int, (a1 ≠ r ∨ b1 ≠ c) → (a2 ≠ r ∨ b2 ≠ c) →
      (a3 ≠ r ∨ b3 ≠ c) → (a4 ≠ r ∨ b4 ≠ c) → cell M r c = cell b r c)
    (w1 w2 w3 w4 : Option Piece)
    (hw1 : w1 = cell b a1 b1) (hw2 : w2 = cell b a2 b2)
    (hw3 : w3 = cell b a3 b3) (hw4 : w4 = cell b a4 b4) :
    setCell (setCell (setCell (setCell M a1 b1 w1) a2 b2 w2)
      a3 b3 w3) a4 b4 w4 = b := by
  subst hw1
  subst hw2
  subst hw3
  subst hw4
  have hs5 := shape8_setCell hsM a1 b1 (cell b a1 b1)
  have hs6 := shape8_setCell hs5 a2 b2 (cell b a2 b2)
  have hs7 := shape8_setCell hs6 a3 b3 (cell b a3 b3)
  apply board_ext (shape8_setCell hs7 _ _ _) hsb
  intro r hr c hc
  by_cases hq4 : a4 = r ∧ b4 = c
  · obtain ⟨hx, hy⟩ := hq4
    subst hx
    subst hy
    rw [cell_setCell_same hs7 _ hD]
  · have hne4 : a4 ≠ r ∨ b4 ≠ c := by tauto
    rw [cell_setCell_ne _ hne4]
    by_cases hq3 : a3 = r ∧ b3 = c
    · obtain ⟨hx, hy⟩ := hq3
      subst hx
      subst hy
      rw [cell_setCell_same hs6 _ hC]
    · have hne3 : a3 ≠ r ∨ b3 ≠ c := by tauto
      rw [cell_setCell_ne _ hne3]
      by_cases hq2 : a2 = r ∧ b2 = c
      · obtain ⟨hx, hy⟩ := hq2
        subst hx
        subst hy
        rw [cell_setCell_same hs5 _ hB]
      · have hne2 : a2 ≠ r ∨ b2 ≠ c := by tauto
        rw [cell_setCell_ne _ hne2]
        by_cases hq1 : a1 = r ∧ b1 = c
        · obtain ⟨hx, hy⟩ := hq1
          subst hx
          subst hy
          rw [cell_setCell_same hsM _ hA]
        · have hne1 : a1 ≠ r ∨ b1 ≠ c := by tauto
          rw [cell_setCell_ne _ hne1]
          exact hout r c hne1 hne2 hne3 hne4

/-! ## Decomposition of the king generator and the legality check -/

/-- Every full king move is either a one-square move or a castling candidate
generated under the castling preconditions. -/
lemma mem_king_moves_cases {st : GameState} {p : Piece} {t : Int × Int}
    (h : t ∈ get_king_moves st p) :
    t ∈ kingAdjacentMoves st p ∨
    (p.has_moved = false ∧ is_king_in_check st p.color = false ∧
      ((can_castle_kingside st p.color = true ∧ t = (homeRow p.color, 6)) ∨
       (can_castle_queenside st p.color = true ∧ t = (homeRow p.color, 2)))) := by
  unfold get_king_moves at h
  rw [List.mem_append] at h
  rcases h with h | h
  · exact Or.inl h
  · right
    revert h
    split
    · rename_i hcond
      intro h
      rw [List.mem_append] at h
      have hmv : p.has_moved = false := by
        have := hcond.1
        revert this
        cases p.has_moved <;> simp
      refine ⟨hmv, hcond.2, ?_⟩
      rcases h with h | h
      · left
        revert h
        split
        · rename_i hks
          intro h
          refine ⟨hks, ?_⟩
          rw [List.mem_singleton.mp h]
          unfold homeRow
          split
          · rfl
          · rfl
        · intro h
          exact absurd h (List.not_mem_nil _)
      · right
        revert h
        split
        · rename_i hqs
          intro h
          refine ⟨hqs, ?_⟩
          rw [List.mem_singleton.mp h]
          unfold homeRow
          split
          · rfl
          · rfl
        · intro h
          exact absurd h (List.not_mem_nil _)
    · intro h
      exact absurd h (List.not_mem_nil _)

/-- No pseudo-legal destination coincides with the square of the moving
piece. -/
lemma pseudo_mem_ne {st : GameState} {p : Piece} {t : Int × Int}
    (hwf : WellFormed st.board)
    (hp : cell st.board p.position.1 p.position.2 = some p)
    (hmem : t ∈ pseudoMoves st p) : t ≠ p.position := by
  unfold pseudoMoves at hmem
  cases hty : p.piece_type
  case pawn =>
    rw [hty] at hmem
    exact mem_pawn_ne hmem
  case knight =>
    rw [hty] at hmem
    exact mem_knight_ne hmem
  case bishop =>
    rw [hty] at hmem
    exact mem_bishop_ne hmem
  case rook =>
    rw [hty] at hmem
    exact mem_rook_ne hmem
  case queen =>
    rw [hty] at hmem
    unfold get_queen_moves at hmem
    rcases List.mem_append.mp hmem with h | h
    · exact mem_rook_ne h
    · exact mem_bishop_ne h
  case king =>
    rw [hty] at hmem
    rcases mem_king_moves_cases hmem with hadj | ⟨_, _, hcast⟩
    · exact mem_kingAdjacent_ne hadj
    · rcases hcast with ⟨hks, ht⟩ | ⟨hqs, ht⟩
      · have hclaim := (can_castle_kingside_iff st p.color hwf).mp hks
        obtain ⟨_, _, _, h6, _⟩ := hclaim
        intro hcontra
        rw [← hcontra, ht] at hp
        dsimp only at hp
        rw [h6] at hp
        exact Option.noConfusion hp
      · have hclaim := (can_castle_queenside_iff st p.color hwf).mp hqs
        obtain ⟨_, _, _, h2, _⟩ := hclaim
        intro hcontra
        rw [← hcontra, ht] at hp
        dsimp only at hp
        rw [h2] at hp
        exact Option.noConfusion hp

/-- The legality check without the castling special case: mutate origin and
target, then restore them. -/
lemma wmcc_nonCastle (st : GameState) (p : Piece) (t : Int × Int)
    (hcase : ¬ (p.piece_type = PieceType.king ∧ (p.position.2 - t.2).natAbs > 1)) :
    would_move_cause_check st p t =
      (is_king_in_check { st with board :=
          (setCell (setCell st.board p.position.1 p.position.2 none) t.1 t.2
            (some { p with position := t, has_moved := true })) } p.color,
       setCell (setCell (setCell (setCell st.board p.position.1 p.position.2 none)
           t.1 t.2 (some { p with position := t, has_moved := true }))
           p.position.1 p.position.2 (some p)) t.1 t.2 (cell st.board t.1 t.2)) := by
  unfold would_move_cause_check
  dsimp only
  rw [if_neg hcase]

/-- The legality check on a kingside castling candidate: mutate king and
rook, then restore all four squares. -/
lemma wmcc_castle_ks (st : GameState) (p : Piece) (t : Int × Int) (rook : Piece)
    (hk : p.piece_type = PieceType.king) (hfar : (p.position.2 - t.2).natAbs > 1)
    (htc : t.2 = 6)
    (hrook : cell (setCell (setCell st.board p.position.1 p.position.2 none) t.1 t.2
      (some { p with position := t, has_moved := true })) p.position.1 7 = some rook) :
    (would_move_cause_check st p t).2 =
      setCell (setCell (setCell (setCell (setCell (setCell (setCell (setCell
        st.board p.position.1 p.position.2 none)
        t.1 t.2 (some { p with position := t, has_moved := true }))
        p.position.1 7 none)
        p.position.1 5 (some { rook with position := (p.position.1, 5) }))
        p.position.1 p.position.2 (some p))
        t.1 t.2 (cell st.board t.1 t.2))
        p.position.1 7 (some rook))
        p.position.1 5 none := by
  unfold would_move_cause_check
  dsimp only
  rw [if_pos ⟨hk, hfar⟩, if_pos htc, hrook]

/-- The legality check on a queenside castling candidate. -/
lemma wmcc_castle_qs (st : GameState) (p : Piece) (t : Int × Int) (rook : Piece)
    (hk : p.piece_type = PieceType.king) (hfar : (p.position.2 - t.2).natAbs > 1)
    (htc : ¬ t.2 = 6)
    (hrook : cell (setCell (setCell st.board p.position.1 p.position.2 none) t.1 t.2
      (some { p with position := t, has_moved := true })) p.position.1 0 = some rook) :
    (would_move_cause_check st p t).2 =
      setCell (setCell (setCell (setCell (setCell (setCell (setCell (setCell
        st.board p.position.1 p.position.2 none)
        t.1 t.2 (some { p with position := t, has_moved := true }))
        p.position.1 0 none)
        p.position.1 3 (some { rook with position := (p.position.1, 3) }))
        p.position.1 p.position.2 (some p))
        t.1 t.2 (cell st.board t.1 t.2))
        p.position.1 0 (some rook))
        p.position.1 3 none := by
  unfold would_move_cause_check
  dsimp only
  rw [if_pos ⟨hk, hfar⟩, if_neg htc, hrook]

/-- Exact restore: for every wellformed board, every piece on it, and every
pseudo-legal candidate destination of that piece (castling candidates taken
with the king on its home square), `would_move_cause_check` leaves the grid
exactly as it was before the call. -/
lemma wmcc_restore_exact (st : GameState) (p : Piece) (t : Int × Int)
    (hwf : WellFormed st.board)
    (hp : cell st.board p.position.1 p.position.2 = some p)
    (hmem : t ∈ pseudoMoves st p)
    (hhome : p.piece_type = PieceType.king → (p.position.2 - t.2).natAbs > 1 →
      p.position = (homeRow p.color, 4)) :
    (would_move_cause_check st p t).2 = st.board := by
  have hs : Shape8 st.board := hwf.1
  have hbA := cell_bounds hp
  by_cases hcase : p.piece_type = PieceType.king ∧ (p.position.2 - t.2).natAbs > 1
  · have hpos := hhome hcase.1 hcase.2
    have hkm : t ∈ get_king_moves st p := by
      unfold pseudoMoves at hmem
      rw [hcase.1] at hmem
      exact hmem
    have hhr : homeRow p.color = 7 ∨ homeRow p.color = 0 := by
      unfold homeRow
      split
      · exact Or.inl rfl
      · exact Or.inr rfl
    have hbhr : 0 ≤ homeRow p.color ∧ homeRow p.color < 8 := by
      rcases hhr with h | h <;> rw [h] <;> norm_num
    have hp1 : p.position.1 = homeRow p.color := by
      rw [hpos]
    have hp2 : p.position.2 = 4 := by
      rw [hpos]
    have hfar := hcase.2
    rcases mem_king_moves_cases hkm with hadj | ⟨hmv, hchk, hcast⟩
    · have hclose := mem_kingAdjacent_close hadj
      omega
    rcases hcast with ⟨hks, ht⟩ | ⟨hqs, ht⟩
    · obtain ⟨⟨king, hkcell, hxa, hxb, hxc⟩, ⟨rook, hrcell, hya, hyb, hyc⟩, h5, h6, hz⟩ :=
        (can_castle_kingside_iff st p.color hwf).mp hks
      have ht1 : t.1 = homeRow p.color := by
        rw [ht]
      have ht2 : t.2 = 6 := by
        rw [ht]
      have hc7 : cell st.board p.position.1 7 = some rook := by
        rw [hp1]
        exact hrcell
      have hc5 : cell st.board p.position.1 5 = none := by
        rw [hp1]
        exact h5
      have hrook : cell (setCell (setCell st.board p.position.1 p.position.2 none) t.1 t.2
          (some { p with position := t, has_moved := true })) p.position.1 7 = some rook := by
        rw [cell_setCell_ne _ (Or.inr (by omega)), cell_setCell_ne _ (Or.inr (by omega))]
        exact hc7
      rw [wmcc_castle_ks st p t rook hcase.1 hcase.2 (by omega) hrook]
      apply set_restore_gen hs
        (shape8_setCell (shape8_setCell (shape8_setCell (shape8_setCell hs _ _ _) _ _ _) _ _ _) _ _ _)
        hbA (by omega) (by omega) (by omega)
      · intro r c hne1 hne2 hne3 hne4
        rw [cell_setCell_ne _ hne4, cell_setCell_ne _ hne3,
          cell_setCell_ne _ hne2, cell_setCell_ne _ hne1]
      · exact hp.symm
      · rfl
      · exact hc7.symm
      · exact hc5.symm
    · obtain ⟨⟨king, hkcell, hxa, hxb, hxc⟩, ⟨rook, hrcell, hya, hyb, hyc⟩, h1, h2, h3, hz⟩ :=
        (can_castle_queenside_iff st p.color hwf).mp hqs
      have ht1 : t.1 = homeRow p.color := by
        rw [ht]
      have ht2 : t.2 = 2 := by
        rw [ht]
      have hc0 : cell st.board p.position.1 0 = some rook := by
        rw [hp1]
        exact hrcell
      have hc3 : cell st.board p.position.1 3 = none := by
        rw [hp1]
        exact h3
      have hrook : cell (setCell (setCell st.board p.position.1 p.position.2 none) t.1 t.2
          (some { p with position := t, has_moved := true })) p.position.1 0 = some rook := by
        rw [cell_setCell_ne _ (Or.inr (by omega)), cell_setCell_ne _ (Or.inr (by omega))]
        exact hc0
      rw [wmcc_castle_qs st p t rook hcase.1 hcase.2 (by omega) hrook]
      apply set_restore_gen hs
        (shape8_setCell (shape8_setCell (shape8_setCell (shape8_setCell hs _ _ _) _ _ _) _ _ _) _ _ _)
        hbA (by omega) (by omega) (by omega)
      · intro r c hne1 hne2 hne3 hne4
        rw [cell_setCell_ne _ hne4, cell_setCell_ne _ hne3,
          cell_setCell_ne _ hne2, cell_setCell_ne _ hne1]
      · exact hp.symm
      · rfl
      · exact hc0.symm
      · exact hc3.symm
  · have hneT : t ≠ p.position := pseudo_mem_ne hwf hp hmem
    have hne : p.position.1 ≠ t.1 ∨ p.position.2 ≠ t.2 := by
      by_contra hcon
      push_neg at hcon
      exact hneT (Prod.ext_iff.mpr ⟨hcon.1.symm, hcon.2.symm⟩)
    rw [wmcc_nonCastle st p t hcase]
    dsimp only
    rw [show (some p) = cell st.board p.position.1 p.position.2 from hp.symm]
    exact set_restore_two hs hne _ _

/-- C2 (amended): for every wellformed board, every piece on it, and every
pseudo-legal candidate destination of that piece — castling candidates
included, provided a castling candidate is attempted with the king on its
home square, as in any position where unmoved kings stand where the setup
placed them — `would_move_cause_check` leaves the grid, and with it the
fields of every piece, exactly as they were before the call. -/
theorem c2_restore_exact (st : GameState) (p : Piece) (t : Int × Int)
    (hwf : WellFormed st.board)
    (hp : cell st.board p.position.1 p.position.2 = some p)
    (hmem : t ∈ pseudoMoves st p)
    (hhome : p.piece_type = PieceType.king → (p.position.2 - t.2).natAbs > 1 →
      p.position = (homeRow p.color, 4)) :
    (would_move_cause_check st p t).2 = st.board :=
  wmcc_restore_exact st p t hwf hp hmem hhome

/-- C2 (amended, witness): the b1 knight of the initial position with
candidate (5,0): the check leaves the grid unchanged. -/
theorem c2_witness :
    (would_move_cause_check initialState
      (mkPiece PieceType.knight Color.white (7, 1)) (5, 0)).2 = initialState.board :=
  c2_restore_exact initialState (mkPiece PieceType.knight Color.white (7, 1)) (5, 0)
    (by decide) (by decide) (by decide) (by intro h; exact absurd h (by decide))

/-! ## Executor bookkeeping (C6, C8) -/

/-- Overwriting an entry with what it held leaves a list unchanged. -/
lemma list_set_getD_self {α : Type} (l : List α) (i : Nat) (d : α) :
    l.set i (l.getD i d) = l := by
  induction l generalizing i with
  | nil => rfl
  | cons a tl ih =>
    cases i with
    | zero => rfl
    | succ n =>
      show a :: tl.set n ((a :: tl).getD (n + 1) d) = a :: tl
      rw [List.getD_cons_succ, ih n]

/-- A grid read after a write: either the written cell (then at the written
square) or an untouched cell. -/
lemma cell_setCell_cases (b : Board) (r c r' c' : Int) (v : Option Piece) :
    ((r, c) = (r', c') ∧ cell (setCell b r c v) r' c' = v) ∨
    cell (setCell b r c v) r' c' = cell b r' c' := by
  by_cases hne : r ≠ r' ∨ c ≠ c'
  · exact Or.inr (cell_setCell_ne _ hne)
  · push_neg at hne
    obtain ⟨h1, h2⟩ := hne
    subst h1
    subst h2
    by_cases hb : 0 ≤ r ∧ r < 8 ∧ 0 ≤ c ∧ c < 8
    · by_cases hi : r.toNat < b.length
      · by_cases hj : c.toNat < (b.getD r.toNat []).length
        · left
          refine ⟨rfl, ?_⟩
          rw [cell, setCell, if_pos hb, if_pos hb]
          simp only [List.getD_eq_getElem?_getD]
          rw [List.getElem?_set_self hi, Option.getD_some,
            List.getElem?_set_self
              (by simpa only [List.getD_eq_getElem?_getD] using hj),
            Option.getD_some]
        · right
          rw [setCell, if_pos hb, List.set_eq_of_length_le (le_of_not_lt hj),
            list_set_getD_self]
      · right
        rw [setCell, if_pos hb, List.set_eq_of_length_le (le_of_not_lt hi)]
    · right
      rw [setCell_not_inb _ hb]

/-- An executing `move_piece` call passes its guard, succeeds through
`castle_step`, and returns `True` with the `exec_move` state. -/
lemma move_piece_run {st : GameState} {p : Piece} {t : Int × Int}
    {bres : Bool} {st' : GameState}
    (hrun : move_piece st (some p) t = some (bres, st'))
    (hm : t ∈ st.valid_moves) :
    ∃ b1, castle_step st p t = some b1 ∧ bres = true ∧ st' = exec_move st p t b1 := by
  rw [move_piece, if_pos hm, Option.map_eq_some'] at hrun
  obtain ⟨b1, hb1, heq⟩ := hrun
  have h1 : bres = true := (congrArg Prod.fst heq).symm
  have h2 : st' = exec_move st p t b1 := (congrArg Prod.snd heq).symm
  exact ⟨b1, hb1, h1, h2⟩

/-- The possible outcomes of `castle_step`: the reset grid, or the reset
grid with the relocation of the piece found on the rook square. -/
lemma castle_step_cases {st : GameState} {p : Piece} {t : Int × Int} {b1 : Board}
    (h : castle_step st p t = some b1) :
    b1 = clearVuln st.board ∨
    ∃ rk rcol nrc, cell (clearVuln st.board) p.position.1 rcol = some rk ∧
      b1 = setCell (setCell (clearVuln st.board) p.position.1 rcol none)
        p.position.1 nrc
        (some { rk with position := (p.position.1, nrc), has_moved := true }) := by
  rw [castle_step] at h
  revert h
  dsimp only
  split
  · split
    · intro h
      exact Option.noConfusion h
    · rename_i rk hrk
      intro h
      injection h with h
      exact Or.inr ⟨rk, _, _, hrk, h.symm⟩
  · intro h
    injection h with h
    exact Or.inl h.symm

/-- Without a king the castling branch is skipped. -/
lemma castle_step_nonking {st : GameState} {p : Piece} {t : Int × Int}
    (h : p.piece_type ≠ PieceType.king) :
    castle_step st p t = some (clearVuln st.board) := by
  rw [castle_step]
  dsimp only
  rw [if_neg (by tauto)]

/-- Accepted moves of the legality filter come from the generator. -/
lemma gvm_subset (st : GameState) (p : Piece) :
    ∀ t ∈ (get_valid_moves st p).1, t ∈ pseudoMoves st p := by
  have haux : ∀ (l : List (Int × Int)) (acc : List (Int × Int) × Board) (t : Int × Int),
      t ∈ (l.foldl (fun acc m =>
        let r := would_move_cause_check { st with board := acc.2 } p m
        (if r.1 then acc.1 else acc.1 ++ [m], r.2)) acc).1 → t ∈ acc.1 ∨ t ∈ l := by
    intro l
    induction l with
    | nil =>
      intro acc t h
      exact Or.inl h
    | cons x xs ih =>
      intro acc t h
      rw [List.foldl_cons] at h
      rcases ih _ t h with hacc | hxs
      · revert hacc
        dsimp only
        split
        · intro hacc
          exact Or.inl hacc
        · intro hacc
          rcases List.mem_append.mp hacc with h1 | h2
          · exact Or.inl h1
          · rw [List.mem_singleton.mp h2]
            exact Or.inr (List.mem_cons_self _ _)
      · exact Or.inr (List.mem_cons_of_mem _ hxs)
  intro t ht
  rcases haux (pseudoMoves st p) ([], st.board) t ht with h | h
  · exact absurd h (List.not_mem_nil _)
  · exact h

/-- Membership in a conditional singleton, keeping the condition. -/
lemma mem_if_singleton_cond {α : Type} {c : Prop} [Decidable c] {x t : α}
    (h : t ∈ (if c then [x] else [])) : t = x ∧ c := by
  revert h
  split
  · rename_i hc
    intro h
    exact ⟨List.mem_singleton.mp h, hc⟩
  · intro h
    exact absurd h (List.not_mem_nil _)

/-- A generated pawn move spanning two ranks is the double push from the
start rank of its color. -/
lemma mem_pawn_double {st : GameState} {p : Piece} {t : Int × Int}
    (h : t ∈ get_pawn_moves st p)
    (hfar : (p.position.1 - t.1).natAbs = 2) :
    t = (p.position.1 + 2 * pawnDir p.color, p.position.2) ∧
    p.position.1 = (if p.color = Color.white then (6 : Int) else 1) := by
  have hd : pawnDir p.color = -1 ∨ pawnDir p.color = 1 := by
    unfold pawnDir
    split
    · exact Or.inl rfl
    · exact Or.inr rfl
  unfold get_pawn_moves at h
  dsimp only at h
  rw [List.mem_append] at h
  rcases h with h | h
  · revert h
    split
    · intro h
      rcases List.mem_cons.mp h with heq | htail
      · exfalso
        rw [heq] at hfar
        dsimp only at hfar
        omega
      · obtain ⟨heq, hcond⟩ := mem_if_singleton_cond htail
        exact ⟨heq, hcond.1⟩
    · intro h
      exact absurd h (List.not_mem_nil _)
  · exfalso
    rw [List.mem_flatMap] at h
    obtain ⟨off, hoff, hmem⟩ := h
    have ht2 : t = (p.position.1 + pawnDir p.color, p.position.2 + off) := by
      revert hmem
      split
      · intro hmem
        rw [List.mem_append] at hmem
        rcases hmem with hmem | hmem
        · revert hmem
          split
          · intro hmem
            exact mem_if_singleton hmem
          · intro hmem
            exact absurd hmem (List.not_mem_nil _)
        · exact mem_if_singleton hmem
      · intro hmem
        exact absurd hmem (List.not_mem_nil _)
    rw [ht2] at hfar
    dsimp only at hfar
    omega

/-- A call that returned `True` passed the guard. -/
lemma move_piece_true_guard {st : GameState} {p : Piece} {t : Int × Int}
    {st' : GameState} (hrun : move_piece st (some p) t = some (true, st')) :
    t ∈ st.valid_moves := by
  by_contra hnm
  rw [move_piece, if_neg hnm] at hrun
  injection hrun with hrun
  exact Bool.noConfusion (congrArg Prod.fst hrun)

/-- The moved piece keeps its type. -/
lemma moved_piece_type (p : Piece) (t : Int × Int) (pdm : Bool) :
    (moved_piece p t pdm).piece_type = p.piece_type := by
  unfold moved_piece clearPawnFlag
  dsimp only
  cases pdm <;> by_cases h : p.piece_type = PieceType.pawn <;>
    simp [h]

/-- The vulnerability flag of the moved piece: true exactly for the double
push (for a pawn, it was cleared first). -/
lemma moved_piece_vuln_pawn (p : Piece) (t : Int × Int) (pdm : Bool)
    (hp : p.piece_type = PieceType.pawn) :
    (moved_piece p t pdm).is_en_passant_vulnerable = pdm := by
  unfold moved_piece clearPawnFlag
  dsimp only
  cases pdm <;> simp [hp]

/-- C6: after every committed move, the en-passant target is set exactly
when the move was a two-square pawn advance, in which case it records the
intervening square and the advanced pawn carries the vulnerability mark;
every other committed move leaves the target cleared, and no pawn other
than a just-double-pushed one is left vulnerable — the reset loop runs
before the bookkeeping of the new move. -/
theorem c6_en_passant_invariant (st : GameState) (p : Piece) (t : Int × Int)
    (st' : GameState)
    (hwf : WellFormed st.board)
    (hp : cell st.board p.position.1 p.position.2 = some p)
    (hmem : t ∈ (get_valid_moves st p).1)
    (hrun : move_piece st (some p) t = some (true, st')) :
    (st'.en_passant_target ≠ none ↔
      (p.piece_type = PieceType.pawn ∧ (p.position.1 - t.1).natAbs = 2)) ∧
    ((p.piece_type = PieceType.pawn ∧ (p.position.1 - t.1).natAbs = 2) →
      st'.en_passant_target = some (p.position.1 + pawnDir p.color, p.position.2) ∧
      t = (p.position.1 + 2 * pawnDir p.color, p.position.2) ∧
      ∃ q, cell st'.board t.1 t.2 = some q ∧ q.is_en_passant_vulnerable = true) ∧
    (∀ r c q, cell st'.board r c = some q → q.piece_type = PieceType.pawn →
      q.is_en_passant_vulnerable = true →
      ((r, c) = (t.1, t.2) ∧ p.piece_type = PieceType.pawn ∧
        (p.position.1 - t.1).natAbs = 2)) := by
  have hm := move_piece_true_guard hrun
  obtain ⟨b1, hb1, -, hst⟩ := move_piece_run hrun hm
  subst hst
  have hbA := cell_bounds hp
  refine ⟨?_, ?_, ?_⟩
  · show (if decide (p.piece_type = PieceType.pawn ∧ (p.position.1 - t.1).natAbs = 2)
        then some (p.position.1 + pawnDir p.color, p.position.2) else none) ≠ none ↔ _
    by_cases hpdm : p.piece_type = PieceType.pawn ∧ (p.position.1 - t.1).natAbs = 2
    · rw [if_pos (by exact decide_eq_true hpdm)]
      simp [hpdm]
    · rw [if_neg (by simp [hpdm])]
      simp [hpdm]
  · intro hpdm
    have hpw : t ∈ get_pawn_moves st p := by
      have hps := gvm_subset st p t hmem
      unfold pseudoMoves at hps
      rw [hpdm.1] at hps
      exact hps
    obtain ⟨ht, hstart⟩ := mem_pawn_double hpw hpdm.2
    have hb1v : b1 = clearVuln st.board := by
      have hnk : p.piece_type ≠ PieceType.king := by
        rw [hpdm.1]
        intro hcontra
        exact PieceType.noConfusion hcontra
      rw [castle_step_nonking hnk] at hb1
      injection hb1 with hb1
      exact hb1.symm
    have hdpos : pawnDir p.color = -1 ∨ pawnDir p.color = 1 := by
      unfold pawnDir
      split
      · exact Or.inl rfl
      · exact Or.inr rfl
    have hrow : p.position.1 = 6 ∨ p.position.1 = 1 := by
      revert hstart
      split
      · intro h
        exact Or.inl h
      · intro h
        exact Or.inr h
    have hwhite : p.color = Color.white → p.position.1 = 6 := by
      intro hc
      revert hstart
      rw [if_pos hc]
      intro h
      exact h
    have hblack : p.color ≠ Color.white → p.position.1 = 1 := by
      intro hc
      revert hstart
      rw [if_neg hc]
      intro h
      exact h
    have ht1 : t.1 = 4 ∨ t.1 = 3 := by
      rcases hdpos with hd | hd
      · left
        rw [ht]
        dsimp only
        have : p.color = Color.white := by
          by_contra hcn
          have := hblack hcn
          unfold pawnDir at hd
          rw [if_neg hcn] at hd
          exact absurd hd (by norm_num)
        rw [hwhite this, hd]
        norm_num
      · right
        rw [ht]
        dsimp only
        have hcn : ¬ p.color = Color.white := by
          intro hcw
          unfold pawnDir at hd
          rw [if_pos hcw] at hd
          exact absurd hd (by norm_num)
        rw [hblack hcn, hd]
        norm_num
    refine ⟨?_, ht, ?_⟩
    · show (if decide (p.piece_type = PieceType.pawn ∧ (p.position.1 - t.1).natAbs = 2)
          then some (p.position.1 + pawnDir p.color, p.position.2) else none) = _
      rw [if_pos (by exact decide_eq_true hpdm)]
    · -- the moved pawn sits at the destination, vulnerable
      show ∃ q, cell (exec_board st p t b1) t.1 t.2 = some q ∧
        q.is_en_passant_vulnerable = true
      have hnpromo : ¬ (p.piece_type = PieceType.pawn ∧
          ((p.color = Color.white ∧ t.1 = 0) ∨ (p.color = Color.black ∧ t.1 = 7))) := by
        rintro ⟨-, hcase | hcase⟩ <;> omega
      have hs3 : Shape8 (if decide (p.piece_type = PieceType.pawn ∧
          p.position.2 ≠ t.2 ∧ cell st.board t.1 t.2 = none) = true then
            setCell (setCell b1 p.position.1 p.position.2 none) p.position.1 t.2 none
          else setCell b1 p.position.1 p.position.2 none) := by
        have hsb1 : Shape8 b1 := by
          rw [hb1v]
          exact shape8_clearVuln hwf.1
        split
        · exact shape8_setCell (shape8_setCell hsb1 _ _ _) _ _ _
        · exact shape8_setCell hsb1 _ _ _
      have htb : 0 ≤ t.1 ∧ t.1 < 8 ∧ 0 ≤ t.2 ∧ t.2 < 8 := by
        have ht2 : t.2 = p.position.2 := by
          rw [ht]
        omega
      refine ⟨moved_piece p t true, ?_, ?_⟩
      · unfold exec_board
        dsimp only
        rw [if_neg hnpromo]
        rw [show (decide (p.piece_type = PieceType.pawn ∧
            (p.position.1 - t.1).natAbs = 2)) = true from decide_eq_true hpdm]
        exact cell_setCell_same hs3 _ htb
      · rw [moved_piece_vuln_pawn p t true hpdm.1]
  · intro r c q hq hqp hqv
    have hq' : cell (exec_board st p t b1) r c = some q := hq
    unfold exec_board at hq'
    dsimp only at hq'
    -- strip the promotion layer
    have hq4 : cell (setCell (if decide (p.piece_type = PieceType.pawn ∧
        p.position.2 ≠ t.2 ∧ cell st.board t.1 t.2 = none) = true then
          setCell (setCell b1 p.position.1 p.position.2 none) p.position.1 t.2 none
        else setCell b1 p.position.1 p.position.2 none) t.1 t.2
        (some (moved_piece p t (decide (p.piece_type = PieceType.pawn ∧
          (p.position.1 - t.1).natAbs = 2))))) r c = some q := by
      by_cases hpromo : p.piece_type = PieceType.pawn ∧
          ((p.color = Color.white ∧ t.1 = 0) ∨ (p.color = Color.black ∧ t.1 = 7))
      · rw [if_pos hpromo] at hq'
        rcases cell_setCell_cases _ t.1 t.2 r c
            (some (mkPiece PieceType.queen p.color (t.1, t.2))) with ⟨hpos, hcv⟩ | hcv
        · exfalso
          rw [hq'] at hcv
          injection hcv with hcv
          rw [hcv] at hqp
          exact PieceType.noConfusion hqp
        · rw [hcv] at hq'
          exact hq'
      · rw [if_neg hpromo] at hq'
        exact hq'
    rcases cell_setCell_cases _ t.1 t.2 r c
        (some (moved_piece p t (decide (p.piece_type = PieceType.pawn ∧
          (p.position.1 - t.1).natAbs = 2)))) with ⟨hpos, hcv⟩ | hcv
    · -- the moved piece itself sits at (r, c) = (t.1, t.2)
      rw [hq4] at hcv
      injection hcv with hcv
      refine ⟨hpos.symm, ?_⟩
      by_cases hpdm : p.piece_type = PieceType.pawn ∧ (p.position.1 - t.1).natAbs = 2
      · exact hpdm
      · exfalso
        have hppawn : p.piece_type = PieceType.pawn := by
          have h2 := congrArg Piece.piece_type hcv
          rw [moved_piece_type] at h2
          rw [← h2]
          exact hqp
        have hv := congrArg Piece.is_en_passant_vulnerable hcv
        rw [moved_piece_vuln_pawn p t _ hppawn] at hv
        rw [hqv, decide_eq_false hpdm] at hv
        exact Bool.noConfusion hv
    · -- below the placement layer all pawns were cleared of the flag
      exfalso
      rw [hcv] at hq4
      have hq3 : cell (setCell b1 p.position.1 p.position.2 none) r c = some q := by
        by_cases hep : decide (p.piece_type = PieceType.pawn ∧
            p.position.2 ≠ t.2 ∧ cell st.board t.1 t.2 = none) = true
        · rw [if_pos hep] at hq4
          rcases cell_setCell_cases _ p.position.1 t.2 r c none with ⟨hpos2, hcv2⟩ | hcv2
          · rw [hq4] at hcv2
            exact Option.noConfusion hcv2
          · rw [hcv2] at hq4
            exact hq4
        · rw [if_neg hep] at hq4
          exact hq4
      have hqb1 : cell b1 r c = some q := by
        rcases cell_setCell_cases _ p.position.1 p.position.2 r c none with ⟨hpos2, hcv2⟩ | hcv2
        · rw [hq3] at hcv2
          exact Option.noConfusion hcv2
        · rw [hcv2] at hq3
          exact hq3
      have hclear : ∀ q0 : Piece, cell (clearVuln st.board) r c = some q0 →
          q0.piece_type = PieceType.pawn → q0.is_en_passant_vulnerable = false := by
        intro q0 hq0 hq0p
        rw [cell_clearVuln] at hq0
        rw [Option.map_eq_some'] at hq0
        obtain ⟨q1, hq1, hq1e⟩ := hq0
        rw [← hq1e] at hq0p ⊢
        unfold clearPawnFlag at hq0p ⊢
        revert hq0p
        split
        · intro h0
          rfl
        · intro hq0p
          rename_i hnp
          exact absurd hq0p hnp
      rcases castle_step_cases hb1 with hb1v | ⟨rk, rcol, nrc, hrk, hb1v⟩
      · rw [hb1v] at hqb1
        have h1 := hclear q hqb1 hqp
        rw [hqv] at h1
        exact Bool.noConfusion h1
      · rw [hb1v] at hqb1
        rcases cell_setCell_cases _ p.position.1 nrc r c
            (some { rk with position := (p.position.1, nrc), has_moved := true })
            with ⟨hpos2, hcv2⟩ | hcv2
        · rw [hqb1] at hcv2
          injection hcv2 with hcv2
          rw [hcv2] at hqp hqv
          have hrkp : rk.piece_type = PieceType.pawn := hqp
          have hrkvt : rk.is_en_passant_vulnerable = true := hqv
          have hrkv : rk.is_en_passant_vulnerable = false := by
            rw [cell_clearVuln, Option.map_eq_some'] at hrk
            obtain ⟨q1, hq1, hq1e⟩ := hrk
            rw [← hq1e] at hrkp ⊢
            unfold clearPawnFlag at hrkp ⊢
            revert hrkp
            split
            · intro h0
              rfl
            · intro hrkp
              rename_i hnp
              exact absurd hrkp hnp
          rw [hrkvt] at hrkv
          exact Bool.noConfusion hrkv
        · rw [hcv2] at hqb1
          rcases cell_setCell_cases _ p.position.1 rcol r c none with ⟨hpos3, hcv3⟩ | hcv3
          · rw [hqb1] at hcv3
            exact Option.noConfusion hcv3
          · rw [hcv3] at hqb1
            have h1 := hclear q hqb1 hqp
            rw [hqv] at h1
            exact Bool.noConfusion h1

/-- Witness for C6: the double push e2-e4 from the initial position (with the
e2 pawn's legal moves cached) sets the en-passant target. -/
theorem c6_witness :
    (exec_move c3State e2Pawn (4, 4) (clearVuln c3State.board)).en_passant_target ≠
      none :=
  (c6_en_passant_invariant c3State e2Pawn (4, 4)
    (exec_move c3State e2Pawn (4, 4) (clearVuln c3State.board))
    (by decide) (by decide) (by decide) (by decide)).1.mpr (by decide)

/-- C8: a committed pawn move that changes file onto an empty destination is
executed as an en-passant capture: the square on the origin's rank at the
destination's file (here holding an enemy pawn) is emptied, and no other
square except the origin loses its occupant. -/
theorem c8_en_passant_removal (st : GameState) (p : Piece) (t : Int × Int)
    (st' : GameState) (q : Piece)
    (hwf : WellFormed st.board)
    (hp : cell st.board p.position.1 p.position.2 = some p)
    (hpawn : p.piece_type = PieceType.pawn)
    (hdiag : p.position.2 ≠ t.2)
    (hempty : cell st.board t.1 t.2 = none)
    (hq : cell st.board p.position.1 t.2 = some q)
    (hqc : q.color ≠ p.color)
    (hqp : q.piece_type = PieceType.pawn)
    (hmem : t ∈ (get_valid_moves st p).1)
    (hrun : move_piece st (some p) t = some (true, st')) :
    cell st'.board p.position.1 t.2 = none ∧
    (∀ r c q0, ¬ (r = p.position.1 ∧ c = p.position.2) →
      ¬ (r = p.position.1 ∧ c = t.2) → cell st.board r c = some q0 →
      ∃ q1, cell st'.board r c = some q1) := by
  have hm := move_piece_true_guard hrun
  obtain ⟨b1, hb1, -, hst⟩ := move_piece_run hrun hm
  subst hst
  have hnk : p.piece_type ≠ PieceType.king := by
    rw [hpawn]
    intro h0
    exact PieceType.noConfusion h0
  have hb1v : b1 = clearVuln st.board := by
    rw [castle_step_nonking hnk] at hb1
    injection hb1 with h0
    exact h0.symm
  subst hb1v
  have hepT : decide (p.piece_type = PieceType.pawn ∧ p.position.2 ≠ t.2 ∧
      cell st.board t.1 t.2 = none) = true := decide_eq_true ⟨hpawn, hdiag, hempty⟩
  -- the destination is one rank away from the origin
  have hps := gvm_subset st p t hmem
  unfold pseudoMoves at hps
  rw [hpawn] at hps
  have hdir : pawnDir p.color = -1 ∨ pawnDir p.color = 1 := by
    unfold pawnDir
    split
    · exact Or.inl rfl
    · exact Or.inr rfl
  have ht1 : t.1 = p.position.1 + pawnDir p.color := by
    rcases mem_pawn_cases hps with h0 | h0 | ⟨off, hoff, h0⟩
    · exact absurd (congrArg Prod.snd h0).symm hdiag
    · exact absurd (congrArg Prod.snd h0).symm hdiag
    · exact congrArg Prod.fst h0
  have hrne : p.position.1 ≠ t.1 := by
    rcases hdir with hd | hd <;> rw [ht1, hd] <;> omega
  have hbA := cell_bounds hp
  refine ⟨?_, ?_⟩
  · show cell (exec_board st p t (clearVuln st.board)) p.position.1 t.2 = none
    unfold exec_board
    dsimp only
    have hvict : cell (setCell (setCell (clearVuln st.board) p.position.1 p.position.2
        none) p.position.1 t.2 none) p.position.1 t.2 = none := by
      by_cases hcb : 0 ≤ t.2 ∧ t.2 < 8
      · exact cell_setCell_same
          (shape8_setCell (shape8_clearVuln hwf.1) _ _ _) none
          ⟨hbA.1, hbA.2.1, hcb.1, hcb.2⟩
      · exact cell_not_inb (by omega)
    by_cases hpromo : p.piece_type = PieceType.pawn ∧
        ((p.color = Color.white ∧ t.1 = 0) ∨ (p.color = Color.black ∧ t.1 = 7))
    · rw [if_pos hpromo, cell_setCell_ne _ (Or.inl (Ne.symm hrne)),
        cell_setCell_ne _ (Or.inl (Ne.symm hrne)), if_pos hepT]
      exact hvict
    · rw [if_neg hpromo, cell_setCell_ne _ (Or.inl (Ne.symm hrne)), if_pos hepT]
      exact hvict
  · intro r c q0 hno hnv hq0
    show ∃ q1, cell (exec_board st p t (clearVuln st.board)) r c = some q1
    unfold exec_board
    dsimp only
    have hne1 : p.position.1 ≠ r ∨ p.position.2 ≠ c := by omega
    have hne2 : p.position.1 ≠ r ∨ t.2 ≠ c := by omega
    have hbase : cell (setCell (setCell (clearVuln st.board) p.position.1 p.position.2
        none) p.position.1 t.2 none) r c = some (clearPawnFlag q0) := by
      rw [cell_setCell_ne none hne2, cell_setCell_ne none hne1, cell_clearVuln, hq0]
      rfl
    by_cases hpromo : p.piece_type = PieceType.pawn ∧
        ((p.color = Color.white ∧ t.1 = 0) ∨ (p.color = Color.black ∧ t.1 = 7))
    · rw [if_pos hpromo]
      rcases cell_setCell_cases _ t.1 t.2 r c
          (some (mkPiece PieceType.queen p.color (t.1, t.2))) with ⟨hpos, hcv⟩ | hcv
      · exact ⟨_, hcv⟩
      · rw [hcv]
        rcases cell_setCell_cases _ t.1 t.2 r c
            (some (moved_piece p t (decide (p.piece_type = PieceType.pawn ∧
              (p.position.1 - t.1).natAbs = 2)))) with ⟨hpos2, hcv2⟩ | hcv2
        · exact ⟨_, hcv2⟩
        · rw [hcv2, if_pos hepT]
          exact ⟨_, hbase⟩
    · rw [if_neg hpromo]
      rcases cell_setCell_cases _ t.1 t.2 r c
          (some (moved_piece p t (decide (p.piece_type = PieceType.pawn ∧
            (p.position.1 - t.1).natAbs = 2)))) with ⟨hpos2, hcv2⟩ | hcv2
      · exact ⟨_, hcv2⟩
      · rw [hcv2, if_pos hepT]
        exact ⟨_, hbase⟩

/-- Witness for C8: in the crafted en-passant position the capture on (2, 5)
empties the victim square (3, 5) and keeps the victim pawn's neighbour
squares' occupants. -/
theorem c8_witness :
    cell (exec_move c8State c8Pawn (2, 5) (clearVuln c8State.board)).board 3 5 =
      none := by
  have h := c8_en_passant_removal c8State c8Pawn (2, 5)
    (exec_move c8State c8Pawn (2, 5) (clearVuln c8State.board)) c8Victim
    (by decide) (by decide) (by decide) (by decide) (by decide) (by decide)
    (by decide) (by decide) (by decide) (by decide)
  exact h.1

/-! ## Board similarity up to bookkeeping flags (C1) -/

/-- Two optional occupants agree up to bookkeeping flags relative to the
friendly color `f`: same occupancy, color and recorded position; king-ness
agrees; and opposing pieces keep their exact type.  Attack detection cannot
tell two such boards apart. -/
def cellRel (f : Color) (o1 o2 : Option Piece) : Prop :=
  match o1, o2 with
  | none, none => True
  | some q1, some q2 =>
      q1.color = q2.color ∧ q1.position = q2.position ∧
      (q1.piece_type = PieceType.king ↔ q2.piece_type = PieceType.king) ∧
      (q1.color ≠ f → q1.piece_type = q2.piece_type)
  | _, _ => False

/-- Pointwise lifting of `cellRel` to grids. -/
def boardRel (f : Color) (b1 b2 : Board) : Prop :=
  ∀ r c : Int, cellRel f (cell b1 r c) (cell b2 r c)

/-- The moved piece keeps its color. -/
lemma moved_piece_color (p : Piece) (t : Int × Int) (pdm : Bool) :
    (moved_piece p t pdm).color = p.color := by
  unfold moved_piece clearPawnFlag
  dsimp only
  cases pdm <;> by_cases h : p.piece_type = PieceType.pawn <;> simp [h]

/-- The moved piece records the destination as its position. -/
lemma moved_piece_position (p : Piece) (t : Int × Int) (pdm : Bool) :
    (moved_piece p t pdm).position = t := by
  unfold moved_piece clearPawnFlag
  dsimp only
  cases pdm <;> by_cases h : p.piece_type = PieceType.pawn <;> simp [h]

/-- Two writes to the same square collapse to the second. -/
lemma setCell_absorb {b : Board} (hs : Shape8 b) (r c : Int)
    (v w : Option Piece) :
    setCell (setCell b r c v) r c w = setCell b r c w := by
  by_cases hin : 0 ≤ r ∧ r < 8 ∧ 0 ≤ c ∧ c < 8
  · have hi : r.toNat < b.length := by
      rw [hs.1]
      omega
    unfold setCell
    rw [if_pos hin, if_pos hin, if_pos hin]
    simp only [List.getD_eq_getElem?_getD]
    rw [List.getElem?_set_self hi]
    dsimp only [Option.getD]
    rw [List.set_set, List.set_set]
  · have h1 : setCell b r c v = b := setCell_not_inb v hin
    rw [h1]

/-- `clearPawnFlag` touches only the vulnerability flag. -/
lemma clearPawnFlag_fields (p : Piece) :
    (clearPawnFlag p).color = p.color ∧ (clearPawnFlag p).position = p.position ∧
    (clearPawnFlag p).piece_type = p.piece_type := by
  unfold clearPawnFlag
  split <;> exact ⟨rfl, rfl, rfl⟩

/-- The reset loop leaves a grid related to the original. -/
lemma boardRel_clearVuln (f : Color) (b : Board) : boardRel f b (clearVuln b) := by
  intro r c
  rw [cell_clearVuln]
  cases h : cell b r c
  · exact trivial
  · rename_i q
    refine ⟨(clearPawnFlag_fields q).1.symm, (clearPawnFlag_fields q).2.1.symm, ?_, ?_⟩
    · rw [(clearPawnFlag_fields q).2.2]
    · intro h0
      exact ((clearPawnFlag_fields q).2.2).symm

/-- A common write keeps two related grids related. -/
lemma boardRel_setCell {f : Color} {b1 b2 : Board} (hb : boardRel f b1 b2)
    (hs1 : Shape8 b1) (hs2 : Shape8 b2) {v1 v2 : Option Piece}
    (hv : cellRel f v1 v2) (r c : Int) :
    boardRel f (setCell b1 r c v1) (setCell b2 r c v2) := by
  intro r' c'
  by_cases hin : 0 ≤ r ∧ r < 8 ∧ 0 ≤ c ∧ c < 8
  · by_cases heq : r = r' ∧ c = c'
    · rw [← heq.1, ← heq.2, cell_setCell_same hs1 _ hin, cell_setCell_same hs2 _ hin]
      exact hv
    · have hne : r ≠ r' ∨ c ≠ c' := by tauto
      rw [cell_setCell_ne _ hne, cell_setCell_ne _ hne]
      exact hb r' c'
  · rw [setCell_not_inb _ hin, setCell_not_inb _ hin]
    exact hb r' c'

/-- Pointwise-equal predicates scan a list identically. -/
lemma any_congr {α : Type} (l : List α) {f g : α → Bool}
    (h : ∀ x ∈ l, f x = g x) : l.any f = l.any g := by
  induction l with
  | nil => rfl
  | cons a tl ih =>
    rw [List.any_cons, List.any_cons, h a (List.mem_cons_self _ _),
      ih (fun x hx => h x (List.mem_cons_of_mem _ hx))]

/-- Pointwise-equal predicates find the same first hit. -/
lemma find_congr {α : Type} (l : List α) {f g : α → Bool}
    (h : ∀ x ∈ l, f x = g x) : l.find? f = l.find? g := by
  induction l with
  | nil => rfl
  | cons a tl ih =>
    cases hfa : f a
    · have hga : g a = false := by
        rw [← h a (List.mem_cons_self _ _)]
        exact hfa
      rw [List.find?_cons_of_neg _ (by simp [hfa]),
        List.find?_cons_of_neg _ (by simp [hga]),
        ih (fun x hx => h x (List.mem_cons_of_mem _ hx))]
    · rw [List.find?_cons_of_pos _ hfa,
        List.find?_cons_of_pos _ (by rw [← h a (List.mem_cons_self _ _)]; exact hfa)]

/-- Jump-move generation only reads occupancy and colors. -/
lemma jumpTargets_congr {f : Color} {b1 b2 : Board} (hb : boardRel f b1 b2)
    (pc : Color) (row col : Int) (offs : List (Int × Int)) :
    jumpTargets b1 pc row col offs = jumpTargets b2 pc row col offs := by
  unfold jumpTargets
  induction offs with
  | nil => rfl
  | cons dd tl ih =>
    rw [List.flatMap_cons, List.flatMap_cons, ih]
    congr 1
    dsimp only
    split
    · have hrel := hb (row + dd.1) (col + dd.2)
      rcases h1 : cell b1 (row + dd.1) (col + dd.2) with _ | q1 <;>
        rcases h2 : cell b2 (row + dd.1) (col + dd.2) with _ | q2
      · rfl
      · rw [h1, h2] at hrel
        exact False.elim hrel
      · rw [h1, h2] at hrel
        exact False.elim hrel
      · rw [h1, h2] at hrel
        dsimp only
        rw [hrel.1]
    · rfl

/-- Ray generation only reads occupancy and colors. -/
lemma rayFrom_congr {f : Color} {b1 b2 : Board} (hb : boardRel f b1 b2)
    (pc : Color) (row col dr dc : Int) :
    ∀ (fuel : Nat) (i : Int),
      rayFrom b1 pc row col dr dc fuel i = rayFrom b2 pc row col dr dc fuel i := by
  intro fuel
  induction fuel with
  | zero =>
    intro i
    rw [rayFrom, rayFrom]
  | succ k ih =>
    intro i
    rw [rayFrom, rayFrom]
    split
    · have hrel := hb (row + i * dr) (col + i * dc)
      rcases h1 : cell b1 (row + i * dr) (col + i * dc) with _ | q1 <;>
        rcases h2 : cell b2 (row + i * dr) (col + i * dc) with _ | q2
      · dsimp only
        rw [ih]
      · rw [h1, h2] at hrel
        exact False.elim hrel
      · rw [h1, h2] at hrel
        exact False.elim hrel
      · rw [h1, h2] at hrel
        dsimp only
        rw [hrel.1]
    · rfl

/-- Castling-free pseudo-move generation of a non-pawn piece only reads
occupancy and colors, through the piece's recorded fields. -/
lemma gmwcv_congr {f : Color} {s1 s2 : GameState}
    (hb : boardRel f s1.board s2.board) {q1 q2 : Piece}
    (hcol : q1.color = q2.color) (hposq : q1.position = q2.position)
    (hty : q1.piece_type = q2.piece_type)
    (hnp : q1.piece_type ≠ PieceType.pawn) :
    get_moves_without_check_validation s1 q1 =
      get_moves_without_check_validation s2 q2 := by
  unfold get_moves_without_check_validation
  rw [← hty]
  cases hq : q1.piece_type
  case pawn => exact absurd hq hnp
  case knight =>
    show get_knight_moves s1 q1 = get_knight_moves s2 q2
    unfold get_knight_moves
    rw [hcol, hposq]
    exact jumpTargets_congr hb _ _ _ _
  case bishop =>
    show get_bishop_moves s1 q1 = get_bishop_moves s2 q2
    unfold get_bishop_moves
    rw [hcol, hposq]
    congr 1
    funext dd
    exact rayFrom_congr hb _ _ _ _ _ _ _
  case rook =>
    show get_rook_moves s1 q1 = get_rook_moves s2 q2
    unfold get_rook_moves
    rw [hcol, hposq]
    congr 1
    funext dd
    exact rayFrom_congr hb _ _ _ _ _ _ _
  case queen =>
    show get_queen_moves s1 q1 = get_queen_moves s2 q2
    unfold get_queen_moves get_rook_moves get_bishop_moves
    rw [hcol, hposq]
    congr 1
    · congr 1
      funext dd
      exact rayFrom_congr hb _ _ _ _ _ _ _
    · congr 1
      funext dd
      exact rayFrom_congr hb _ _ _ _ _ _ _
  case king =>
    show kingAdjacentMoves s1 q1 = kingAdjacentMoves s2 q2
    unfold kingAdjacentMoves
    rw [hcol, hposq]
    exact jumpTargets_congr hb _ _ _ _

/-- Attack detection cannot distinguish related grids: occupancy, colors,
recorded positions and opposing types agree, and the pawn and king branches
read nothing else. -/
lemma attack_congr {f : Color} {s1 s2 : GameState}
    (hb : boardRel f s1.board s2.board) (row col : Int) :
    is_square_under_attack s1 row col f = is_square_under_attack s2 row col f := by
  unfold is_square_under_attack
  apply any_congr
  intro r hr
  apply any_congr
  intro c hc
  have hrel := hb r c
  rcases h1 : cell s1.board r c with _ | q1 <;>
    rcases h2 : cell s2.board r c with _ | q2
  · rfl
  · rw [h1, h2] at hrel
    exact False.elim hrel
  · rw [h1, h2] at hrel
    exact False.elim hrel
  · rw [h1, h2] at hrel
    obtain ⟨hcol, hposq, hking, henemy⟩ := hrel
    dsimp only
    by_cases he : q1.color = f
    · rw [if_neg (not_not_intro he), if_neg (not_not_intro (hcol.symm.trans he))]
    · have he2 : q2.color ≠ f := fun hh => he (hcol.trans hh)
      rw [if_pos he, if_pos he2]
      have hty := henemy he
      rw [← hty]
      cases hq : q1.piece_type
      · dsimp only
        rw [hcol]
      · dsimp only
        rw [gmwcv_congr hb hcol hposq hty (by rw [hq]; exact fun hh => PieceType.noConfusion hh)]
      · dsimp only
        rw [gmwcv_congr hb hcol hposq hty (by rw [hq]; exact fun hh => PieceType.noConfusion hh)]
      · dsimp only
        rw [gmwcv_congr hb hcol hposq hty (by rw [hq]; exact fun hh => PieceType.noConfusion hh)]
      · dsimp only
        rw [gmwcv_congr hb hcol hposq hty (by rw [hq]; exact fun hh => PieceType.noConfusion hh)]
      · rfl

/-- The king search cannot distinguish related grids. -/
lemma findKing_congr {f : Color} {s1 s2 : GameState}
    (hb : boardRel f s1.board s2.board) :
    findKing s1 f = findKing s2 f := by
  unfold findKing
  apply find_congr
  intro q hq
  have hrel := hb q.1 q.2
  rcases h1 : cell s1.board q.1 q.2 with _ | q1 <;>
    rcases h2 : cell s2.board q.1 q.2 with _ | q2
  · rfl
  · rw [h1, h2] at hrel
    exact False.elim hrel
  · rw [h1, h2] at hrel
    exact False.elim hrel
  · rw [h1, h2] at hrel
    obtain ⟨hcol, hposq, hking, henemy⟩ := hrel
    dsimp only
    exact decide_eq_decide.mpr (and_congr (by rw [hcol]) hking)

/-- Check detection cannot distinguish related grids. -/
lemma check_congr {f : Color} (s1 s2 : GameState)
    (hb : boardRel f s1.board s2.board) :
    is_king_in_check s1 f = is_king_in_check s2 f := by
  unfold is_king_in_check
  rw [findKing_congr hb]
  cases h : findKing s2 f
  · rfl
  · exact attack_congr hb _ _

/-- The executing path without the castling relocation: the prefix returns
just the vulnerability-reset grid. -/
lemma castle_step_no {st : GameState} {p : Piece} {t : Int × Int}
    (h : ¬ (p.piece_type = PieceType.king ∧ (p.position.2 - t.2).natAbs > 1)) :
    castle_step st p t = some (clearVuln st.board) := by
  unfold castle_step
  dsimp only
  rw [if_neg h]

/-- When every candidate's legality check restores the grid exactly, the
threaded fold of `get_valid_moves` evaluates every candidate on the original
grid, and every accepted move passed its check there. -/
lemma gvm_foldl_restore (st : GameState) (p : Piece) :
    ∀ (l : List (Int × Int)) (acc : List (Int × Int) × Board),
      (∀ m ∈ l, (would_move_cause_check st p m).2 = st.board) →
      acc.2 = st.board →
      ∀ x ∈ (l.foldl (fun acc m =>
        let r := would_move_cause_check { st with board := acc.2 } p m
        (if r.1 then acc.1 else acc.1 ++ [m], r.2)) acc).1,
        x ∈ acc.1 ∨ (would_move_cause_check st p x).1 = false := by
  intro l
  induction l with
  | nil =>
    intro acc hl hacc x hx
    exact Or.inl hx
  | cons m tl ih =>
    intro acc hl hacc x hx
    rw [List.foldl_cons] at hx
    have hst : { st with board := acc.2 } = st := by
      rw [hacc]
    have hstep : ((fun acc m =>
        let r := would_move_cause_check { st with board := acc.2 } p m
        (if r.1 then acc.1 else acc.1 ++ [m], r.2))
          acc m).2 = st.board := by
      dsimp only
      rw [hst]
      exact hl m (List.mem_cons_self _ _)
    have hres := ih _ (fun m2 hm2 => hl m2 (List.mem_cons_of_mem _ hm2)) hstep x hx
    rcases hres with hin | hfalse
    · revert hin
      dsimp only
      split
      · intro hin
        exact Or.inl hin
      · intro hin
        rcases List.mem_append.mp hin with h1 | h1
        · exact Or.inl h1
        · rename_i hcond
          right
          rw [List.mem_singleton.mp h1]
          rw [hst] at hcond
          cases hb : (would_move_cause_check st p m).1
          · rfl
          · exact absurd hb hcond
    · exact Or.inr hfalse

/-- Every move accepted by `get_valid_moves` passed its check on the original
grid, provided every candidate's check restores the grid exactly. -/
lemma gvm_of_restore {st : GameState} {p : Piece}
    (hex : ∀ m ∈ pseudoMoves st p, (would_move_cause_check st p m).2 = st.board)
    {t : Int × Int} (hmem : t ∈ (get_valid_moves st p).1) :
    (would_move_cause_check st p t).1 = false := by
  unfold get_valid_moves at hmem
  rcases gvm_foldl_restore st p (pseudoMoves st p) ([], st.board) hex rfl t hmem with h | h
  · exact absurd h (List.not_mem_nil _)
  · exact h

/-- The simulated moved king/piece and the committed moved piece are related:
same color, destination and type. -/
lemma cellRel_moved (p : Piece) (t : Int × Int) (pdm : Bool) :
    cellRel p.color (some { p with position := t, has_moved := true })
      (some (moved_piece p t pdm)) := by
  refine ⟨?_, ?_, ?_, fun h0 => absurd rfl h0⟩
  · rw [moved_piece_color]
  · rw [moved_piece_position]
  · rw [moved_piece_type]

/-- An ordinary committed move (no en-passant removal) produces a grid
related to the one `would_move_cause_check` simulated. -/
lemma boardRel_exec_nonCastle (st : GameState) (p : Piece) (t : Int × Int)
    (hs : Shape8 st.board)
    (hnoep : ¬ (p.piece_type = PieceType.pawn ∧ p.position.2 ≠ t.2 ∧
      cell st.board t.1 t.2 = none)) :
    boardRel p.color
      (setCell (setCell st.board p.position.1 p.position.2 none) t.1 t.2
        (some { p with position := t, has_moved := true }))
      (exec_board st p t (clearVuln st.board)) := by
  have hs0 : Shape8 (clearVuln st.board) := shape8_clearVuln hs
  have hrel1 := boardRel_setCell (boardRel_clearVuln p.color st.board) hs hs0
    (show cellRel p.color none none from True.intro) p.position.1 p.position.2
  unfold exec_board
  dsimp only
  rw [show decide (p.piece_type = PieceType.pawn ∧ p.position.2 ≠ t.2 ∧
      cell st.board t.1 t.2 = none) = false from decide_eq_false hnoep]
  rw [if_neg (fun hh => Bool.noConfusion hh)]
  split
  · rename_i hpromo
    rw [setCell_absorb (shape8_setCell hs0 _ _ _)]
    refine boardRel_setCell hrel1 (shape8_setCell hs _ _ _) (shape8_setCell hs0 _ _ _)
      ?_ t.1 t.2
    refine ⟨rfl, rfl, ?_, fun h0 => absurd rfl h0⟩
    constructor
    · intro hh
      rw [hpromo.1] at hh
      exact PieceType.noConfusion hh
    · intro hh
      exact PieceType.noConfusion hh
  · exact boardRel_setCell hrel1 (shape8_setCell hs _ _ _) (shape8_setCell hs0 _ _ _)
      (cellRel_moved p t _) t.1 t.2

/-- The first component of the legality check on a kingside castling
candidate. -/
lemma wmcc_fst_castle_ks (st : GameState) (p : Piece) (t : Int × Int) (rook : Piece)
    (hk : p.piece_type = PieceType.king) (hfar : (p.position.2 - t.2).natAbs > 1)
    (htc : t.2 = 6)
    (hrook : cell (setCell (setCell st.board p.position.1 p.position.2 none) t.1 t.2
      (some { p with position := t, has_moved := true })) p.position.1 7 = some rook) :
    (would_move_cause_check st p t).1 =
      is_king_in_check { st with board :=
        (setCell (setCell (setCell (setCell st.board p.position.1 p.position.2 none)
          t.1 t.2 (some { p with position := t, has_moved := true }))
          p.position.1 7 none) p.position.1 5
          (some { rook with position := (p.position.1, 5) })) } p.color := by
  unfold would_move_cause_check
  dsimp only
  rw [if_pos ⟨hk, hfar⟩, if_pos htc, hrook]

/-- The first component of the legality check on a queenside castling
candidate. -/
lemma wmcc_fst_castle_qs (st : GameState) (p : Piece) (t : Int × Int) (rook : Piece)
    (hk : p.piece_type = PieceType.king) (hfar : (p.position.2 - t.2).natAbs > 1)
    (htc : ¬ t.2 = 6)
    (hrook : cell (setCell (setCell st.board p.position.1 p.position.2 none) t.1 t.2
      (some { p with position := t, has_moved := true })) p.position.1 0 = some rook) :
    (would_move_cause_check st p t).1 =
      is_king_in_check { st with board :=
        (setCell (setCell (setCell (setCell st.board p.position.1 p.position.2 none)
          t.1 t.2 (some { p with position := t, has_moved := true }))
          p.position.1 0 none) p.position.1 3
          (some { rook with position := (p.position.1, 3) })) } p.color := by
  unfold would_move_cause_check
  dsimp only
  rw [if_pos ⟨hk, hfar⟩, if_neg htc, hrook]

/-- A committed castle produces a grid related to the one the legality check
simulated: the same four squares change, to related occupants, and every
other square only loses pawn vulnerability flags. -/
lemma boardRel_exec_castle (st : GameState) (p : Piece) (rook : Piece)
    (hs : Shape8 st.board) (row rc nc tc : Int)
    (hrow : 0 ≤ row ∧ row < 8)
    (hcols : (rc = 7 ∧ nc = 5 ∧ tc = 6) ∨ (rc = 0 ∧ nc = 3 ∧ tc = 2)) :
    boardRel p.color
      (setCell (setCell (setCell (setCell st.board row 4 none) row tc
          (some { p with position := (row, tc), has_moved := true }))
        row rc none) row nc (some { rook with position := (row, nc) }))
      (setCell (setCell (setCell (setCell (clearVuln st.board) row rc none) row nc
          (some { clearPawnFlag rook with position := (row, nc), has_moved := true }))
        row 4 none) row tc (some (moved_piece p (row, tc) false))) := by
  have hsC : Shape8 (clearVuln st.board) := shape8_clearVuln hs
  intro r c
  by_cases h1 : r = row ∧ c = tc
  · rw [h1.1, h1.2]
    rw [cell_setCell_ne _ (Or.inr (by omega : nc ≠ tc)),
      cell_setCell_ne _ (Or.inr (by omega : rc ≠ tc)),
      cell_setCell_same (shape8_setCell hs _ _ _) _
        ⟨hrow.1, hrow.2, by omega, by omega⟩]
    rw [cell_setCell_same
        (shape8_setCell (shape8_setCell (shape8_setCell hsC _ _ _) _ _ _) _ _ _) _
        ⟨hrow.1, hrow.2, by omega, by omega⟩]
    exact cellRel_moved p (row, tc) false
  by_cases h2 : r = row ∧ c = nc
  · rw [h2.1, h2.2]
    rw [cell_setCell_same
        (shape8_setCell (shape8_setCell (shape8_setCell hs _ _ _) _ _ _) _ _ _) _
        ⟨hrow.1, hrow.2, by omega, by omega⟩]
    rw [cell_setCell_ne _ (Or.inr (by omega : tc ≠ nc)),
      cell_setCell_ne _ (Or.inr (by omega : (4 : Int) ≠ nc)),
      cell_setCell_same (shape8_setCell hsC _ _ _) _
        ⟨hrow.1, hrow.2, by omega, by omega⟩]
    have hpt : ({ clearPawnFlag rook with position := (row, nc), has_moved := true } : Piece).piece_type = rook.piece_type := (clearPawnFlag_fields rook).2.2
    refine ⟨?_, rfl, ?_, fun h0 => ?_⟩
    · exact ((clearPawnFlag_fields rook).1).symm
    · rw [hpt]
    · exact ((clearPawnFlag_fields rook).2.2).symm
  by_cases h3 : r = row ∧ c = rc
  · rw [h3.1, h3.2]
    rw [cell_setCell_ne _ (Or.inr (by omega : nc ≠ rc)),
      cell_setCell_same (shape8_setCell (shape8_setCell hs _ _ _) _ _ _) _
        ⟨hrow.1, hrow.2, by omega, by omega⟩]
    rw [cell_setCell_ne _ (Or.inr (by omega : tc ≠ rc)),
      cell_setCell_ne _ (Or.inr (by omega : (4 : Int) ≠ rc)),
      cell_setCell_ne _ (Or.inr (by omega : nc ≠ rc)),
      cell_setCell_same hsC _ ⟨hrow.1, hrow.2, by omega, by omega⟩]
    exact True.intro
  by_cases h4 : r = row ∧ c = 4
  · rw [h4.1, h4.2]
    rw [cell_setCell_ne _ (Or.inr (by omega : nc ≠ 4)),
      cell_setCell_ne _ (Or.inr (by omega : rc ≠ 4)),
      cell_setCell_ne _ (Or.inr (by omega : tc ≠ 4)),
      cell_setCell_same hs _ ⟨hrow.1, hrow.2, by norm_num, by norm_num⟩]
    rw [cell_setCell_ne _ (Or.inr (by omega : tc ≠ 4)),
      cell_setCell_same (shape8_setCell (shape8_setCell hsC _ _ _) _ _ _) _
        ⟨hrow.1, hrow.2, by norm_num, by norm_num⟩]
    exact True.intro
  · have hne1 : row ≠ r ∨ tc ≠ c := by omega
    have hne2 : row ≠ r ∨ nc ≠ c := by omega
    have hne3 : row ≠ r ∨ rc ≠ c := by omega
    have hne4 : row ≠ r ∨ (4 : Int) ≠ c := by omega
    rw [cell_setCell_ne _ hne2, cell_setCell_ne _ hne3, cell_setCell_ne _ hne1,
      cell_setCell_ne _ hne4]
    rw [cell_setCell_ne _ hne1, cell_setCell_ne _ hne4, cell_setCell_ne _ hne2,
      cell_setCell_ne _ hne3]
    exact boardRel_clearVuln p.color st.board r c

/-- C1 (amended): every destination accepted by the legality filter is safe
to commit, for every move whose effects the filter simulates faithfully:
provided the move is not an en-passant capture (whose pawn removal the
filter does not simulate) and castling candidates arise only with the king
on its home square, the mover's king is not attacked after `move_piece`
commits the move. -/
theorem c1_filter_safe (st : GameState) (p : Piece) (t : Int × Int)
    (st' : GameState)
    (hwf : WellFormed st.board)
    (hp : cell st.board p.position.1 p.position.2 = some p)
    (hhome : p.piece_type = PieceType.king →
      ∀ m ∈ pseudoMoves st p, (p.position.2 - m.2).natAbs > 1 →
        p.position = (homeRow p.color, 4))
    (hnoep : ¬ (p.piece_type = PieceType.pawn ∧ p.position.2 ≠ t.2 ∧
      cell st.board t.1 t.2 = none))
    (hmem : t ∈ (get_valid_moves st p).1)
    (hrun : move_piece st (some p) t = some (true, st')) :
    is_king_in_check st' p.color = false := by
  have hs : Shape8 st.board := hwf.1
  have hex : ∀ m ∈ pseudoMoves st p, (would_move_cause_check st p m).2 = st.board :=
    fun m hm => wmcc_restore_exact st p m hwf hp hm (fun hk hfar => hhome hk m hm hfar)
  have hchk : (would_move_cause_check st p t).1 = false := gvm_of_restore hex hmem
  have hpmem : t ∈ pseudoMoves st p := gvm_subset st p t hmem
  have hm := move_piece_true_guard hrun
  obtain ⟨b1, hb1, -, hst⟩ := move_piece_run hrun hm
  subst hst
  by_cases hcase : p.piece_type = PieceType.king ∧ (p.position.2 - t.2).natAbs > 1
  case neg =>
    have hb1v : b1 = clearVuln st.board := by
      rw [castle_step_no hcase] at hb1
      injection hb1 with h0
      exact h0.symm
    subst hb1v
    have hfst : (would_move_cause_check st p t).1 =
        is_king_in_check { st with board := (setCell (setCell st.board p.position.1
          p.position.2 none) t.1 t.2
          (some { p with position := t, has_moved := true })) } p.color := by
      rw [wmcc_nonCastle st p t hcase]
    have hrel := boardRel_exec_nonCastle st p t hs hnoep
    have hcongr := check_congr
      { st with board := (setCell (setCell st.board p.position.1 p.position.2 none)
          t.1 t.2 (some { p with position := t, has_moved := true })) }
      (exec_move st p t (clearVuln st.board)) hrel
    rw [← hcongr, ← hfst]
    exact hchk
  case pos =>
    have hposKing := hhome hcase.1 t hpmem hcase.2
    have hp1 : p.position.1 = homeRow p.color := by rw [hposKing]
    have hp2 : p.position.2 = 4 := by rw [hposKing]
    have hhr : homeRow p.color = 7 ∨ homeRow p.color = 0 := by
      unfold homeRow
      split
      · exact Or.inl rfl
      · exact Or.inr rfl
    have hbhr : 0 ≤ homeRow p.color ∧ homeRow p.color < 8 := by
      rcases hhr with h | h <;> rw [h] <;> norm_num
    have hkm : t ∈ get_king_moves st p := by
      unfold pseudoMoves at hpmem
      rw [hcase.1] at hpmem
      exact hpmem
    have hdecEP : decide (p.piece_type = PieceType.pawn ∧ p.position.2 ≠ t.2 ∧
        cell st.board t.1 t.2 = none) = false := by
      apply decide_eq_false
      rintro ⟨hpw, -, -⟩
      rw [hcase.1] at hpw
      exact PieceType.noConfusion hpw
    have hdecPDM : decide (p.piece_type = PieceType.pawn ∧
        (p.position.1 - t.1).natAbs = 2) = false := by
      apply decide_eq_false
      rintro ⟨hpw, -⟩
      rw [hcase.1] at hpw
      exact PieceType.noConfusion hpw
    have hnpromo : ¬ (p.piece_type = PieceType.pawn ∧
        ((p.color = Color.white ∧ t.1 = 0) ∨ (p.color = Color.black ∧ t.1 = 7))) := by
      rintro ⟨hpw, -⟩
      rw [hcase.1] at hpw
      exact PieceType.noConfusion hpw
    have hexec : exec_board st p t b1 =
        setCell (setCell b1 p.position.1 p.position.2 none) t.1 t.2
          (some (moved_piece p t false)) := by
      unfold exec_board
      dsimp only
      rw [hdecEP, hdecPDM, if_neg (fun hh => Bool.noConfusion hh), if_neg hnpromo]
    rcases mem_king_moves_cases hkm with hadj | ⟨hmv, hchk0, hcast⟩
    · have hclose := mem_kingAdjacent_close hadj
      omega
    rcases hcast with ⟨hks, ht⟩ | ⟨hqs, ht⟩
    · obtain ⟨⟨king, hkcell, hxa, hxb, hxc⟩, ⟨rook, hrcell, hya, hyb, hyc⟩, h5, h6, hz⟩ :=
        (can_castle_kingside_iff st p.color hwf).mp hks
      have ht2 : t.2 = 6 := by rw [ht]
      have hrookB : cell (setCell (setCell st.board p.position.1 p.position.2 none)
          t.1 t.2 (some { p with position := t, has_moved := true }))
          p.position.1 7 = some rook := by
        rw [cell_setCell_ne _ (Or.inr (by omega)), cell_setCell_ne _ (Or.inr (by omega)),
          hp1]
        exact hrcell
      have hfst := wmcc_fst_castle_ks st p t rook hcase.1 hcase.2 ht2 hrookB
      have hcV : cell (clearVuln st.board) p.position.1 7 =
          some (clearPawnFlag rook) := by
        rw [cell_clearVuln, hp1, hrcell]
        rfl
      have hgt : t.2 > p.position.2 := by omega
      have hb1v : b1 = setCell (setCell (clearVuln st.board) p.position.1 7 none)
          p.position.1 5 (some { clearPawnFlag rook with position := (p.position.1, 5), has_moved := true }) := by
        unfold castle_step at hb1
        dsimp only at hb1
        rw [if_pos hcase, if_pos hgt, if_pos hgt, hcV] at hb1
        injection hb1 with h0
        exact h0.symm
      have hrel := boardRel_exec_castle st p rook hs (homeRow p.color) 7 5 6 hbhr
        (Or.inl ⟨rfl, rfl, rfl⟩)
      have hboard : (exec_move st p t b1).board =
          setCell (setCell (setCell (setCell (clearVuln st.board)
            (homeRow p.color) 7 none) (homeRow p.color) 5
            (some { clearPawnFlag rook with position := (homeRow p.color, 5), has_moved := true }))
            (homeRow p.color) 4 none) (homeRow p.color) 6
            (some (moved_piece p (homeRow p.color, 6) false)) := by
        show exec_board st p t b1 = _
        rw [hexec, hb1v, hp1, hp2, ht]
      have hrelF : boardRel p.color
          (setCell (setCell (setCell (setCell st.board (homeRow p.color) 4 none)
            (homeRow p.color) 6
            (some { p with position := (homeRow p.color, 6), has_moved := true }))
            (homeRow p.color) 7 none) (homeRow p.color) 5
            (some { rook with position := (homeRow p.color, 5) }))
          (exec_move st p t b1).board := by
        rw [hboard]
        exact hrel
      have hcongr := check_congr
        { st with board := (setCell (setCell (setCell (setCell st.board
            (homeRow p.color) 4 none) (homeRow p.color) 6
            (some { p with position := (homeRow p.color, 6), has_moved := true }))
            (homeRow p.color) 7 none) (homeRow p.color) 5
            (some { rook with position := (homeRow p.color, 5) })) }
        (exec_move st p t b1) hrelF
      rw [← hcongr]
      rw [hp1, hp2, ht] at hfst
      rw [ht] at hchk
      dsimp only at hfst
      rw [← hfst]
      exact hchk
    · obtain ⟨⟨king, hkcell, hxa, hxb, hxc⟩, ⟨rook, hrcell, hya, hyb, hyc⟩, h1q, h2q, h3q, hz⟩ :=
        (can_castle_queenside_iff st p.color hwf).mp hqs
      have ht2 : t.2 = 2 := by rw [ht]
      have hrookB : cell (setCell (setCell st.board p.position.1 p.position.2 none)
          t.1 t.2 (some { p with position := t, has_moved := true }))
          p.position.1 0 = some rook := by
        rw [cell_setCell_ne _ (Or.inr (by omega)), cell_setCell_ne _ (Or.inr (by omega)),
          hp1]
        exact hrcell
      have hfst := wmcc_fst_castle_qs st p t rook hcase.1 hcase.2 (by omega) hrookB
      have hcV : cell (clearVuln st.board) p.position.1 0 =
          some (clearPawnFlag rook) := by
        rw [cell_clearVuln, hp1, hrcell]
        rfl
      have hngt : ¬ t.2 > p.position.2 := by omega
      have hb1v : b1 = setCell (setCell (clearVuln st.board) p.position.1 0 none)
          p.position.1 3 (some { clearPawnFlag rook with position := (p.position.1, 3), has_moved := true }) := by
        unfold castle_step at hb1
        dsimp only at hb1
        rw [if_pos hcase, if_neg hngt, if_neg hngt, hcV] at hb1
        injection hb1 with h0
        exact h0.symm
      have hrel := boardRel_exec_castle st p rook hs (homeRow p.color) 0 3 2 hbhr
        (Or.inr ⟨rfl, rfl, rfl⟩)
      have hboard : (exec_move st p t b1).board =
          setCell (setCell (setCell (setCell (clearVuln st.board)
            (homeRow p.color) 0 none) (homeRow p.color) 3
            (some { clearPawnFlag rook with position := (homeRow p.color, 3), has_moved := true }))
            (homeRow p.color) 4 none) (homeRow p.color) 2
            (some (moved_piece p (homeRow p.color, 2) false)) := by
        show exec_board st p t b1 = _
        rw [hexec, hb1v, hp1, hp2, ht]
      have hrelF : boardRel p.color
          (setCell (setCell (setCell (setCell st.board (homeRow p.color) 4 none)
            (homeRow p.color) 2
            (some { p with position := (homeRow p.color, 2), has_moved := true }))
            (homeRow p.color) 0 none) (homeRow p.color) 3
            (some { rook with position := (homeRow p.color, 3) }))
          (exec_move st p t b1).board := by
        rw [hboard]
        exact hrel
      have hcongr := check_congr
        { st with board := (setCell (setCell (setCell (setCell st.board
            (homeRow p.color) 4 none) (homeRow p.color) 2
            (some { p with position := (homeRow p.color, 2), has_moved := true }))
            (homeRow p.color) 0 none) (homeRow p.color) 3
            (some { rook with position := (homeRow p.color, 3) })) }
        (exec_move st p t b1) hrelF
      rw [← hcongr]
      rw [hp1, hp2, ht] at hfst
      rw [ht] at hchk
      dsimp only at hfst
      rw [← hfst]
      exact hchk

/-- Witness for the amended C1: the b1 knight of the initial position, with
its legal moves cached, commits (5, 0); White's king is not in check
afterwards. -/
theorem c1_witness :
    is_king_in_check (exec_move c1WitState (mkPiece PieceType.knight Color.white (7, 1))
      (5, 0) (clearVuln c1WitState.board)) Color.white = false :=
  c1_filter_safe c1WitState (mkPiece PieceType.knight Color.white (7, 1)) (5, 0)
    (exec_move c1WitState (mkPiece PieceType.knight Color.white (7, 1)) (5, 0)
      (clearVuln c1WitState.board))
    (by decide) (by decide) (by intro h; exact absurd h (by decide)) (by decide)
    (by decide) (by decide)

end CRChess
